import Mathlib

/-!
# A parallel grep: thread pool, file scan, traversal and report

Shallow embedding of `src/main.cpp`.

* Data: `Result` (the match record), the activity log `thread_logs`, the
  `ThreadPool` fields.
* Sequential code is embedded as functions: `ThreadPool.enqueue`,
  `search_pattern_in_file`, `search_files`, `main_after_wait`.
* Concurrent code is embedded as a scheduler-driven transition system.  Every
  thread (the main thread and each pool worker) is a sequential program whose
  atomic steps are the critical sections of the source, so a run is a list of
  thread names (`Thread`) saying who moves next, and `step` performs the next
  atomic step of that thread, or is `none` when the thread is blocked on
  `condition.wait` with a false predicate, or finished.
* What comes from outside the repository (the regex engine, the file streams,
  `std::sort`, the printing of a thread id, the clock) is a field of `World`.

Scope of the model.  `line_number` (an `int`) and `unfinished_tasks` (a
`size_t`) are natural numbers: the first counts the lines of a file read so
far and stays below `2^31` for files of fewer than `2^31` lines (beyond that
the C++ behaviour is undefined), the second counts tasks that are held in
memory, and is proved to equal the queue length plus the number of busy
workers (`Inv.counter`), and to be positive at every decrement.  In `step` a
`condition.wait(lock, pred)` is a step that can be taken whenever `pred` holds,
which keeps every run of the program; the section on the condition variable
(`Notify`) models the sleeping threads and the choice that a `notify_one` makes.
Directories are ones `directory_iterator` can list.
-/

namespace Grep

/-! ## Data model -/

/-- The record `struct Result` (lines 18-22). -/
structure Result where
  file_path : String
  line_number : Nat
  line_content : String
  deriving DecidableEq

/-- The global `map<thread::id, vector<string>> thread_logs` (line 111), as the
list of its entries in key order; a thread id is the index of the worker. -/
abbrev ThreadLogs := List (Nat × List String)

/-- The statement `thread_logs[id].push_back(name)` (line 133): `operator[]` inserts
an empty vector under a new key, keeping the keys ordered. -/
def thread_logs_push (id : Nat) (name : String) : ThreadLogs → ThreadLogs
  | [] => [(id, [name])]
  | (k, names) :: rest =>
    if id < k then (id, [name]) :: (k, names) :: rest
    else if id = k then (k, names ++ [name]) :: rest
    else (k, names) :: thread_logs_push id name rest

/-- The two shared collections written by the scan tasks: the vector `results` of
`main` (line 180), guarded by `results_mutex`, and `thread_logs`, guarded by
`log_mutex`. -/
structure Shared where
  results : List Result
  thread_logs : ThreadLogs
  deriving DecidableEq

/-- What the program uses from outside the repository. -/
structure World where
  /-- The constructor `regex re(pattern)` (line 120): `none` when it throws `regex_error`,
  otherwise the predicate `fun line => regex_search(line, re)` (line 123). -/
  regex : String → Option (String → Bool)
  /-- The stream `ifstream file(file_path)` (line 114): `none` when the stream is not
  good after opening, otherwise the lines that `getline` yields (line 121). -/
  ifstream : String → Option (List String)
  /-- The call `std::sort(first, last, comp)` (line 191) with the comparison of line 192. -/
  sort : List Result → List Result
  /-- The text `operator<<` prints for a `thread::id` (line 203). -/
  thread_id : Nat → String
  /-- The value `elapsed_time` (line 215). -/
  elapsed_time : Nat

/-- The member `filesystem::path(file_path).filename().string()` (line 133): what follows
the last `/`. -/
def filename (file_path : String) : String :=
  String.mk ((file_path.data.splitOn '/').getLastD [])

/-! ## The scan task (lines 113-134) -/

/-- One atomic update of the shared collections by a scan task. -/
inductive Op where
  /-- Lines 128-129: `lock_guard lock(results_mutex); results.push_back(res)`. -/
  | push_back (res : Result)
  /-- Lines 132-133: `lock_guard lock_log(log_mutex); thread_logs[id].push_back(name)`. -/
  | log (name : String)
  deriving DecidableEq

/-- How a call ends: it returns, or it throws. -/
inductive Outcome where
  | returned
  | thrown (what : String)
  deriving DecidableEq

/-- The loop `while (getline(file, line))` (lines 121-131), from the current value of
`line_number`: the updates it makes, in order. -/
def scan_lines (re : String → Bool) (file_path : String) : Nat → List String → List Op
  | _, [] => []
  | line_number, line :: rest =>
    if re line then
      Op.push_back ⟨file_path, line_number + 1, line⟩ ::
        scan_lines re file_path (line_number + 1) rest
    else scan_lines re file_path (line_number + 1) rest

/-- The body of `search_pattern_in_file(pattern, file_path, results)` (lines 113-134) as
the sequence of its atomic updates and the way the call ends.  The stream is tested
first (line 115), the regex is built after it (line 120). -/
def search_pattern_in_file_ops (w : World) (pattern file_path : String) :
    List Op × Outcome :=
  match w.ifstream file_path with
  | none => ([], Outcome.returned)
  | some lines =>
    match w.regex pattern with
    | none => ([], Outcome.thrown "regex_error")
    | some re =>
      (scan_lines re file_path 0 lines ++ [Op.log (filename file_path)], Outcome.returned)

/-- Effect of one atomic update made by the thread `id`. -/
def Op.apply (id : Nat) : Op → Shared → Shared
  | Op.push_back res, sh => ⟨sh.results ++ [res], sh.thread_logs⟩
  | Op.log name, sh => ⟨sh.results, thread_logs_push id name sh.thread_logs⟩

/-- The call `search_pattern_in_file(pattern, file_path, results)` run to its end by the
thread `id` with no other thread moving: how it ends and the shared collections after. -/
def search_pattern_in_file (w : World) (id : Nat) (pattern file_path : String)
    (sh : Shared) : Outcome × Shared :=
  let run := search_pattern_in_file_ops w pattern file_path
  (run.2, run.1.foldl (fun acc op => op.apply id acc) sh)

/-! ## The thread pool (lines 24-107) -/

/-- A queued closure: `search_pattern_in_file` bound to its arguments (line 139) inside
a `packaged_task` (line 70). -/
structure Task where
  pattern : String
  file_path : String
  deriving DecidableEq

/-- Where a worker thread is in its loop (lines 29-46). -/
inductive Worker where
  /-- At `condition.wait` (line 33). -/
  | waiting
  /-- Inside `task()` (line 40): the updates still to make and the way the body ends.
  With no update left the worker is between the end of the body and the decrement
  of line 43. -/
  | running (task : Task) (ops : List Op) (outcome : Outcome)
  /-- After `return` (line 35). -/
  | returned
  deriving DecidableEq

/-- The fields of `class ThreadPool` (lines 100-105); `workers` holds the state of each
worker thread. -/
structure ThreadPool where
  workers : List Worker
  tasks : List Task
  stop : Bool
  unfinished_tasks : Nat
  deriving DecidableEq

/-- The constructor `ThreadPool(threads)` (lines 26-49). -/
def ThreadPool.new (threads : Nat) : ThreadPool :=
  ⟨List.replicate threads Worker.waiting, [], false, 0⟩

/-- The critical section of `enqueue` (lines 72-79): the error it throws if any, and
the pool afterwards. -/
def ThreadPool.enqueue (pool : ThreadPool) (t : Task) : Except String Unit × ThreadPool :=
  if pool.stop then (Except.error "ThreadPool is stopped", pool)
  else (Except.ok (), ⟨pool.workers, pool.tasks ++ [t], pool.stop, pool.unfinished_tasks + 1⟩)

/-- The predicate of `wait` (line 54). -/
def ThreadPool.wait_predicate (pool : ThreadPool) : Bool :=
  pool.tasks.isEmpty && pool.unfinished_tasks == 0

/-! ## Traversal (lines 136-144) -/

/-- An entry met by `directory_iterator`. -/
inductive Entry where
  /-- An entry with `is_regular_file()`; `path` is `entry.path().string()`. -/
  | regular (path : String)
  /-- An entry with `is_directory()` and the entries of that directory, in iteration
  order. -/
  | directory (path : String) (entries : List Entry)
  /-- Any other entry. -/
  | other (path : String)

mutual
/-- The body of the loop of `search_files` for one entry (lines 138-142): the tasks it
submits, in order. -/
def search_files_entry (pattern : String) : Entry → List Task
  | Entry.regular path => [⟨pattern, path⟩]
  | Entry.directory _ entries => search_files pattern entries
  | Entry.other _ => []
/-- The function `search_files(pattern, root, pool, results, futures)` (lines 136-144) on the
entries of `root`: the tasks passed to `pool.enqueue`, in order. -/
def search_files (pattern : String) : List Entry → List Task
  | [] => []
  | entry :: rest => search_files_entry pattern entry ++ search_files pattern rest
end

/-! ## The running program -/

/-- Where the main thread is between line 184 and line 186. -/
inductive Main where
  /-- Inside `search_files` with these submissions still to make; with none left, inside
  `pool.wait()` at the `condition.wait` of line 54. -/
  | submitting (pending : List Task)
  /-- Inside `pool.wait()` between line 55 and line 57. -/
  | wait_stop
  /-- Inside `pool.wait()` at the joins (lines 60-63). -/
  | wait_join
  /-- The call `pool.wait()` has returned. -/
  | drained
  /-- The call `pool.enqueue` threw (line 75) and nothing catches it. -/
  | terminated
  deriving DecidableEq

/-- State of the program while the pool runs. `futures` holds the shared state of the
`packaged_task` of every task whose body has ended: a `packaged_task` stores what
its function throws instead of letting it out (line 77 calls it, nothing reads
`futures`). -/
structure State where
  pool : ThreadPool
  main : Main
  shared : Shared
  futures : List (Task × Outcome)
  deriving DecidableEq

/-- A thread of the program. -/
inductive Thread where
  | main
  | worker (i : Nat)
  deriving DecidableEq

/-- The state in which a pool of `threads` workers has been constructed and the main
thread is about to make the submissions `pending` and then to call `wait`. -/
def launch (threads : Nat) (pending : List Task) : State :=
  ⟨ThreadPool.new threads, Main.submitting pending, ⟨[], []⟩, []⟩

/-- The state after `ThreadPool pool(num_threads)` (line 181), on entering
`search_files` (line 184). -/
def start (threads : Nat) (pattern : String) (root : List Entry) : State :=
  launch threads (search_files pattern root)

/-- Next atomic step of the main thread. -/
def main_step (s : State) : Option State :=
  match s.main with
  | Main.submitting (t :: rest) =>
    match s.pool.enqueue t with
    | (Except.ok _, pool) => some ⟨pool, Main.submitting rest, s.shared, s.futures⟩
    | (Except.error _, pool) => some ⟨pool, Main.terminated, s.shared, s.futures⟩
  | Main.submitting [] =>
    if s.pool.wait_predicate then some ⟨s.pool, Main.wait_stop, s.shared, s.futures⟩
    else none
  | Main.wait_stop =>
    some ⟨⟨s.pool.workers, s.pool.tasks, true, s.pool.unfinished_tasks⟩, Main.wait_join,
      s.shared, s.futures⟩
  | Main.wait_join =>
    if s.pool.workers.all (fun wk => wk = Worker.returned) then
      some ⟨s.pool, Main.drained, s.shared, s.futures⟩
    else none
  | Main.drained => none
  | Main.terminated => none

/-- Next atomic step of worker `i` (lines 29-46). -/
def worker_step (w : World) (i : Nat) (s : State) : Option State :=
  match s.pool.workers[i]? with
  | none => none
  | some Worker.waiting =>
    match s.pool.tasks with
    | t :: rest =>
      let run := search_pattern_in_file_ops w t.pattern t.file_path
      some ⟨⟨s.pool.workers.set i (Worker.running t run.1 run.2), rest, s.pool.stop,
        s.pool.unfinished_tasks⟩, s.main, s.shared, s.futures⟩
    | [] =>
      if s.pool.stop then
        some ⟨⟨s.pool.workers.set i Worker.returned, [], s.pool.stop,
          s.pool.unfinished_tasks⟩, s.main, s.shared, s.futures⟩
      else none
  | some (Worker.running t (op :: ops) outcome) =>
    some ⟨⟨s.pool.workers.set i (Worker.running t ops outcome), s.pool.tasks, s.pool.stop,
      s.pool.unfinished_tasks⟩, s.main, op.apply i s.shared, s.futures⟩
  | some (Worker.running t [] outcome) =>
    some ⟨⟨s.pool.workers.set i Worker.waiting, s.pool.tasks, s.pool.stop,
      s.pool.unfinished_tasks - 1⟩, s.main, s.shared, s.futures ++ [(t, outcome)]⟩
  | some Worker.returned => none

/-- Next atomic step of a thread. -/
def step (w : World) : Thread → State → Option State
  | Thread.main, s => main_step s
  | Thread.worker i, s => worker_step w i s

/-- The state a schedule leads to, `none` when it asks a blocked or finished thread to
move. -/
def exec (w : World) : List Thread → State → Option State
  | [], s => some s
  | th :: rest, s =>
    match step w th s with
    | none => none
    | some s1 => exec w rest s1

/-! ## After the pool has drained (lines 190-225) -/

/-- The comparison passed to `std::sort` (lines 191-193): `a.file_path < b.file_path`,
the lexicographic comparison of the characters. -/
def path_less (a b : Result) : Bool :=
  decide (a.file_path.data < b.file_path.data)

/-- One line of the result file (line 196). -/
def result_line (res : Result) : String :=
  res.file_path ++ ":" ++ toString res.line_number ++ ": " ++ res.line_content ++ "\n"

/-- One line of the log file (lines 203-207). -/
def log_line (w : World) (entry : Nat × List String) : String :=
  w.thread_id entry.1 ++ ": " ++ String.join (entry.2.map fun name => name ++ ",") ++ "\n"

/-- What the program leaves behind. -/
structure Output where
  exit_code : Nat
  /-- Content of the result file, `none` when the program did not create it. -/
  result_file : Option String
  /-- Content of the log file, `none` when the program did not create it. -/
  log_file : Option String
  /-- The lines written to standard output. -/
  stdout : List String

/-- The vector `results` after `sort` (lines 191-193). -/
def report (w : World) (sh : Shared) : List Result :=
  w.sort sh.results

/-- The rest of `main` once `pool.wait()` has returned (lines 190-225); `results.size()` is
the size of the vector, which sorting in place does not change. -/
def main_after_wait (w : World) (result_file_name log_file_name : String) (num_threads : Int)
    (sh : Shared) : Output :=
  let results := report w sh
  ⟨0,
   some (String.join (results.map result_line)),
   some (String.join (sh.thread_logs.map (log_line w))),
   ["Searched files: " ++ toString sh.results.length,
    "Files with pattern: " ++ toString sh.thread_logs.length,
    "Patterns number: " ++ toString sh.results.length,
    "Result file: " ++ result_file_name,
    "Log file: " ++ log_file_name,
    "Used threads: " ++ toString num_threads,
    "Elapsed time: " ++ toString w.elapsed_time ++ "[ms]"]⟩

/-! ## The contract of `std::sort`, and two implementations

`gnu_sort` is the sort of GNU libstdc++ (`bits/stl_algo.h`, `std::__sort`), on a range
held as a list and iterators held as positions.  Its result is `none` for what is not
modelled: an access outside the range, and the heap sort that `__introsort_loop` falls
back to when its depth limit is used up. -/

/-- What the C++ standard promises of `std::sort(first, last, comp)`: the elements are
rearranged, and afterwards no element compares less than one that stands before it. -/
def StdSort (sort : List Result → List Result) : Prop :=
  ∀ l, (sort l).Perm l ∧ (sort l).Pairwise fun a b => path_less b a = false

/-- A stable insertion sort by `path_less`: one way to meet `StdSort`. -/
def insertion_sort (v : List Result) : List Result :=
  v.insertionSort fun a b => path_less b a = false

/-- The call `std::iter_swap(i, j)`. -/
def gnu_iter_swap (v : List Result) (i j : Nat) : Option (List Result) :=
  match v[i]?, v[j]? with
  | some x, some y => some ((v.set i y).set j x)
  | _, _ => none

/-- The function `__move_median_to_first(result, a, b, c, comp)`. -/
def gnu_move_median_to_first (v : List Result) (result a b c : Nat) : Option (List Result) :=
  match v[a]?, v[b]?, v[c]? with
  | some va, some vb, some vc =>
    if path_less va vb then
      if path_less vb vc then gnu_iter_swap v result b
      else if path_less va vc then gnu_iter_swap v result c
      else gnu_iter_swap v result a
    else if path_less va vc then gnu_iter_swap v result a
    else if path_less vb vc then gnu_iter_swap v result c
    else gnu_iter_swap v result b
  | _, _, _ => none

/-- The loop `while (comp(first, pivot)) ++first;` of `__unguarded_partition`: the final
`first`. The first argument bounds the number of iterations. -/
def gnu_scan_up (v : List Result) (pivot : Nat) : Nat → Nat → Option Nat
  | 0, _ => none
  | fuel + 1, first =>
    match v[first]?, v[pivot]? with
    | some x, some p => if path_less x p then gnu_scan_up v pivot fuel (first + 1) else some first
    | _, _ => none

/-- The loop `while (comp(pivot, last)) --last;` of `__unguarded_partition`: the final
`last`. -/
def gnu_scan_down (v : List Result) (pivot : Nat) : Nat → Nat → Option Nat
  | 0, _ => none
  | fuel + 1, last =>
    match v[last]?, v[pivot]? with
    | some x, some p =>
      if path_less p x then
        match last with
        | 0 => none
        | k + 1 => gnu_scan_down v pivot fuel k
      else some last
    | _, _ => none

/-- The function `__unguarded_partition(first, last, pivot, comp)`: the range afterwards
and the position returned. -/
def gnu_unguarded_partition (pivot : Nat) :
    Nat → List Result → Nat → Nat → Option (List Result × Nat)
  | 0, _, _, _ => none
  | fuel + 1, v, first, last =>
    match gnu_scan_up v pivot (v.length + 1) first with
    | none => none
    | some first1 =>
      match last with
      | 0 => none
      | k + 1 =>
        match gnu_scan_down v pivot (v.length + 1) k with
        | none => none
        | some last1 =>
          if first1 < last1 then
            match gnu_iter_swap v first1 last1 with
            | none => none
            | some v1 => gnu_unguarded_partition pivot fuel v1 (first1 + 1) last1
          else some (v, first1)

/-- The function `__unguarded_partition_pivot(first, last, comp)`. -/
def gnu_unguarded_partition_pivot (v : List Result) (first last : Nat) :
    Option (List Result × Nat) :=
  let mid := first + (last - first) / 2
  match gnu_move_median_to_first v first (first + 1) mid (last - 1) with
  | none => none
  | some v1 => gnu_unguarded_partition first (v.length + 1) v1 (first + 1) last

/-- The function `__introsort_loop(first, last, depth_limit, comp)`, with
`_S_threshold = 16`; every turn of its loop and every nested call lowers the depth
limit by one. -/
def gnu_introsort_loop : Nat → List Result → Nat → Nat → Option (List Result)
  | 0, v, first, last => if last - first > 16 then none else some v
  | depth_limit + 1, v, first, last =>
    if last - first > 16 then
      match gnu_unguarded_partition_pivot v first last with
      | none => none
      | some (v1, cut) =>
        match gnu_introsort_loop depth_limit v1 cut last with
        | none => none
        | some v2 => gnu_introsort_loop depth_limit v2 first cut
    else some v

/-- The function `__unguarded_linear_insert(last, comp)` once `val` holds `*last`. -/
def gnu_unguarded_linear_insert (val : Result) : Nat → List Result → Nat → Option (List Result)
  | 0, _, _ => none
  | fuel + 1, v, last =>
    match last with
    | 0 => none
    | next + 1 =>
      match v[next]? with
      | none => none
      | some x =>
        if path_less val x then gnu_unguarded_linear_insert val fuel (v.set (next + 1) x) next
        else some (v.set (next + 1) val)

/-- The body of the loop of `__insertion_sort(first, last, comp)` for the positions `i`,
`i + 1`, ... (`count` of them). -/
def gnu_insertion_sort_loop (first : Nat) : Nat → List Result → Nat → Option (List Result)
  | 0, v, _ => some v
  | count + 1, v, i =>
    match v[i]?, v[first]? with
    | some val, some front =>
      let moved :=
        if path_less val front then
          some (v.take first ++ val :: ((v.drop first).take (i - first) ++ v.drop (i + 1)))
        else gnu_unguarded_linear_insert val (v.length + 1) v i
      match moved with
      | none => none
      | some v1 => gnu_insertion_sort_loop first count v1 (i + 1)
    | _, _ => none

/-- The function `__insertion_sort(first, last, comp)`. -/
def gnu_insertion_sort (v : List Result) (first last : Nat) : Option (List Result) :=
  if first = last then some v else gnu_insertion_sort_loop first (last - (first + 1)) v (first + 1)

/-- The function `__unguarded_insertion_sort(first, last, comp)`. -/
def gnu_unguarded_insertion_sort : Nat → List Result → Nat → Option (List Result)
  | 0, v, _ => some v
  | count + 1, v, i =>
    match v[i]? with
    | none => none
    | some val =>
      match gnu_unguarded_linear_insert val (v.length + 1) v i with
      | none => none
      | some v1 => gnu_unguarded_insertion_sort count v1 (i + 1)

/-- The function `__final_insertion_sort(first, last, comp)`. -/
def gnu_final_insertion_sort (v : List Result) (first last : Nat) : Option (List Result) :=
  if last - first > 16 then
    match gnu_insertion_sort v first (first + 16) with
    | none => none
    | some v1 => gnu_unguarded_insertion_sort (last - (first + 16)) v1 (first + 16)
  else gnu_insertion_sort v first last

/-- The function `std::__lg(n)`: the position of the highest bit of `n`; the first
argument bounds the number of halvings. -/
def gnu_lg : Nat → Nat → Nat
  | 0, _ => 0
  | fuel + 1, n => if n < 2 then 0 else gnu_lg fuel (n / 2) + 1

/-- The function `std::__sort(first, last, comp)` on the whole vector. -/
def gnu_sort (v : List Result) : Option (List Result) :=
  if v.length = 0 then some v
  else
    match gnu_introsort_loop (gnu_lg v.length v.length * 2) v 0 v.length with
    | none => none
    | some v1 => gnu_final_insertion_sort v1 0 v.length

/-- The sort of `gnu_sort`, leaving the vector as it is where the model gives no answer. -/
def gnu_sort_total (v : List Result) : List Result :=
  match gnu_sort v with
  | some sorted => sorted
  | none => v

/-! ## What the claims say, in their own words -/

mutual
/-- The regular files at or under an entry, in the order of the traversal. -/
def regular_files_entry : Entry → List String
  | Entry.regular path => [path]
  | Entry.directory _ entries => regular_files entries
  | Entry.other _ => []
/-- The regular files under a directory with these entries. -/
def regular_files : List Entry → List String
  | [] => []
  | entry :: rest => regular_files_entry entry ++ regular_files rest
end

/-- Whether a line matches the pattern: the pattern compiles and `regex_search` finds it
in the line. -/
def line_matches (w : World) (pattern line : String) : Bool :=
  match w.regex pattern with
  | none => false
  | some re => re line

/-- The matches of one file: none when it cannot be read, otherwise one for each line
that matches, numbered from 1. -/
def file_matches (w : World) (pattern file_path : String) : List Result :=
  match w.ifstream file_path with
  | none => []
  | some lines =>
    (lines.enum.filter fun numbered => line_matches w pattern numbered.2).map
      fun numbered => ⟨file_path, numbered.1 + 1, numbered.2⟩

/-- The matches of a tree: those of each regular file under the root. -/
def expected_matches (w : World) (pattern : String) (root : List Entry) : List Result :=
  (regular_files root).flatMap (file_matches w pattern)

/-! ## Quantities of a state used in the proofs -/

/-- The updates of the body of a task. -/
def Task.ops (w : World) (t : Task) : List Op :=
  (search_pattern_in_file_ops w t.pattern t.file_path).1

/-- The way the body of a task ends. -/
def Task.outcome (w : World) (t : Task) : Outcome :=
  (search_pattern_in_file_ops w t.pattern t.file_path).2

/-- The results an update adds to `results`. -/
def Op.pushed : Op → List Result
  | Op.push_back res => [res]
  | Op.log _ => []

/-- All file names held in `thread_logs`. -/
def logged_names (logs : ThreadLogs) : List String :=
  logs.flatMap Prod.snd

/-- The updates that have been made to the shared collections, results first. -/
def Shared.made (sh : Shared) : List Op :=
  sh.results.map Op.push_back ++ (logged_names sh.thread_logs).map Op.log

/-- The updates a worker has still to make for the task it is running. -/
def Worker.owed : Worker → List Op
  | Worker.running _ ops _ => ops
  | _ => []

/-- The task a worker has dequeued and not yet counted as finished. -/
def Worker.held : Worker → List Task
  | Worker.running t _ _ => [t]
  | _ => []

/-- The submissions the main thread has still to make. -/
def Main.pending : Main → List Task
  | Main.submitting pending => pending
  | _ => []

/-- Whether the main thread is past the predicate of `wait` (line 54). -/
def Main.past_predicate : Main → Bool
  | Main.wait_stop => true
  | Main.wait_join => true
  | Main.drained => true
  | _ => false

/-- Whether the main thread is past the assignment `stop = true` of `wait` (line 58). -/
def Main.past_stop : Main → Bool
  | Main.wait_join => true
  | Main.drained => true
  | _ => false

/-- What holds in every state of a run in which a pool of `threads` workers is given
the tasks `all`. -/
structure Inv (w : World) (threads : Nat) (all : List Task) (s : State) : Prop where
  /-- The pool keeps its workers. -/
  size : s.pool.workers.length = threads
  /-- The counter is the number of tasks queued or held by a worker. -/
  counter : s.pool.unfinished_tasks =
    s.pool.tasks.length + (s.pool.workers.flatMap Worker.held).length
  /-- Every task is finished, held by a worker, queued or still to be submitted. -/
  tasks : (s.futures.map Prod.fst ++ (s.pool.workers.flatMap Worker.held ++
    (s.pool.tasks ++ s.main.pending))).Perm all
  /-- Every update of every task is made or still to make, once. -/
  updates : (s.shared.made ++ (s.pool.workers.flatMap Worker.owed ++
    (s.pool.tasks.flatMap (Task.ops w) ++ s.main.pending.flatMap (Task.ops w)))).Perm
      (all.flatMap (Task.ops w))
  /-- A running worker ends its task the way the body of the task ends. -/
  running : ∀ t ops outcome, Worker.running t ops outcome ∈ s.pool.workers →
    outcome = t.outcome w
  /-- So does a finished task. -/
  finished : ∀ p ∈ s.futures, p.2 = p.1.outcome w
  alive : s.main ≠ Main.terminated
  stop_iff : s.pool.stop = s.main.past_stop
  passed : s.main.past_predicate = true → s.pool.tasks = [] ∧ s.pool.unfinished_tasks = 0
  returned_stop : Worker.returned ∈ s.pool.workers → s.pool.stop = true
  joined : s.main = Main.drained → ∀ wk ∈ s.pool.workers, wk = Worker.returned
  /-- Every key of `thread_logs` holds a name. -/
  logged : ∀ entry ∈ s.shared.thread_logs, entry.2 ≠ []

/-- Steps a worker has still to take before it returns, tasks it may yet dequeue apart. -/
def Worker.rank : Worker → Nat
  | Worker.waiting => 1
  | Worker.running _ ops _ => ops.length + 2
  | Worker.returned => 0

/-- Steps the main thread has still to take, and those its pending submissions cause. -/
def Main.rank (w : World) : Main → Nat
  | Main.submitting pending => (pending.map fun t => (t.ops w).length + 4).sum + 3
  | Main.wait_stop => 2
  | Main.wait_join => 1
  | Main.drained => 0
  | Main.terminated => 0

/-- A bound on the number of steps left in a state. -/
def State.rank (w : World) (s : State) : Nat :=
  s.main.rank w + ((s.pool.tasks.map fun t => (t.ops w).length + 3).sum +
    (s.pool.workers.map Worker.rank).sum)

/-! ## Concrete worlds and schedules -/

/-- A regex engine for patterns of letters and digits, on which `regex_search` is a
search for a substring; it refuses every other pattern, as `std::regex` refuses the
pattern `(`. -/
def literal_regex (pattern : String) : Option (String → Bool) :=
  if pattern.data.all Char.isAlphanum then
    some fun line => decide (pattern.data <:+: line.data)
  else none

/-- A world with the given files and sort. -/
def demo_world (files : String → Option (List String)) (sort : List Result → List Result) :
    World :=
  ⟨literal_regex, files, sort, fun id => toString id, 0⟩

/-- The files of the scenario of the specification. -/
def scenario_files : String → Option (List String)
  | "root/a.txt" => some ["foo", "bar"]
  | "root/b/c.txt" => some ["foobar"]
  | _ => none

/-- The directory `root` of the scenario of the specification. -/
def scenario_root : List Entry :=
  [Entry.regular "root/a.txt", Entry.directory "root/b" [Entry.regular "root/b/c.txt"]]

/-- A file of seventeen lines that all contain `foo`. -/
def long_file : String → Option (List String)
  | "a.txt" => some (List.replicate 17 "foo")
  | _ => none

/-- A file of sixteen lines that contain `foo` and a file of one. -/
def two_files : String → Option (List String)
  | "a.txt" => some (List.replicate 16 "foo")
  | "b.txt" => some ["foo"]
  | _ => none

/-- A schedule for two workers and two tasks of two updates each: both submissions, then
worker 1 runs both tasks while worker 0 sleeps, then `wait` and the return of the workers. -/
def one_worker_works : List Thread :=
  [Thread.main, Thread.main] ++ List.replicate 8 (Thread.worker 1) ++
    [Thread.main, Thread.main, Thread.worker 0, Thread.worker 1, Thread.main]

/-- A schedule for two workers and the two tasks of the scenario in which the second
task records its match before the first does. -/
def second_file_first : List Thread :=
  [Thread.main, Thread.main, Thread.worker 0, Thread.worker 1, Thread.worker 1,
    Thread.worker 0, Thread.worker 0, Thread.worker 1, Thread.worker 0, Thread.worker 1,
    Thread.main, Thread.main, Thread.worker 0, Thread.worker 1, Thread.main]

/-- A schedule for one worker and two tasks that make no update. -/
def two_empty_tasks : List Thread :=
  [Thread.main, Thread.main] ++ List.replicate 4 (Thread.worker 0) ++
    [Thread.main, Thread.main, Thread.worker 0, Thread.main]

/-- A schedule for one worker and one task of eighteen updates. -/
def one_long_task : List Thread :=
  Thread.main :: List.replicate 20 (Thread.worker 0) ++
    [Thread.main, Thread.main, Thread.worker 0, Thread.main]

/-- A schedule for one worker, a task of seventeen updates and a task of two. -/
def first_file_first : List Thread :=
  [Thread.main, Thread.main] ++ List.replicate 23 (Thread.worker 0) ++
    [Thread.main, Thread.main, Thread.worker 0, Thread.main]

/-- A schedule for two workers, a task of seventeen updates and a task of two: worker 0
dequeues the first task, worker 1 runs the second to its end, then worker 0 runs the
first. -/
def second_file_overtakes : List Thread :=
  [Thread.main, Thread.main, Thread.worker 0] ++ List.replicate 4 (Thread.worker 1) ++
    List.replicate 18 (Thread.worker 0) ++
    [Thread.main, Thread.main, Thread.worker 0, Thread.worker 1, Thread.main]

/-! ## The condition variable in detail

The step relation above treats a `condition.wait(lock, pred)` as a step that can be
taken whenever `pred` holds. That keeps every run of the program, so it is the right
ground for what holds in all runs; it cannot show a thread that stays blocked. Here a
thread that finds its predicate false falls asleep, and moves again only once a
`notify_one` or `notify_all` has woken it. The workers (line 33) and `wait` (line 54)
sleep on the one `condition` of the pool; a `notify_one` wakes one sleeper, which the
move names. A spurious wake-up, which the C++ standard allows and does not promise, is
not a step of this model. -/

namespace Notify

/-- Where a worker thread is in its loop (lines 29-46). -/
inductive Worker where
  /-- About to lock the mutex and test the predicate of `condition.wait` (line 33): at
  the start of the thread, after an iteration, or after it has been woken. -/
  | ready
  /-- Blocked inside `condition.wait` (line 33), the mutex released. -/
  | asleep
  /-- Inside `task()` (line 40): the updates still to make and the way the body ends.
  With no update left the worker is between the end of the body and the decrement
  of line 43. -/
  | running (task : Task) (ops : List Op) (outcome : Outcome)
  /-- After the decrement (line 43), before `condition.notify_one()` (line 45). -/
  | notifying
  /-- After `return` (line 35). -/
  | returned
  deriving DecidableEq

/-- Where the main thread is between line 184 and line 186. -/
inductive Main where
  /-- Inside `search_files`, about to call `pool.enqueue` for the first of these
  submissions; with none left, inside `pool.wait()`, about to lock the mutex and test
  the predicate of line 54. -/
  | submitting (pending : List Task)
  /-- Inside `pool.enqueue`, after its critical section and before
  `condition.notify_one()` (line 80), with these submissions still to make. -/
  | notifying (pending : List Task)
  /-- Blocked inside the `condition.wait` of `pool.wait()` (line 54). -/
  | asleep
  /-- Inside `pool.wait()` between line 55 and line 57. -/
  | wait_stop
  /-- Inside `pool.wait()` with `stop` set, before `condition.notify_all()` (line 60). -/
  | wait_notify
  /-- Inside `pool.wait()` at the joins (lines 61-63). -/
  | wait_join
  /-- The call `pool.wait()` has returned. -/
  | drained
  /-- The call `pool.enqueue` threw (line 75) and nothing catches it. -/
  | terminated
  deriving DecidableEq

/-- State of the program while the pool runs: the fields of the pool (lines 100-105),
with the state of each worker thread, the main thread, the shared collections and the
futures of the finished tasks. -/
structure State where
  workers : List Worker
  tasks : List Task
  stop : Bool
  unfinished_tasks : Nat
  main : Main
  shared : Shared
  futures : List (Task × Outcome)
  deriving DecidableEq

/-- The state in which a pool of `threads` workers has been constructed (lines 26-49)
and the main thread is about to make the submissions `pending` and then to call
`wait`. -/
def launch (threads : Nat) (pending : List Task) : State :=
  ⟨List.replicate threads Worker.ready, [], false, 0, Main.submitting pending, ⟨[], []⟩, []⟩

/-- Whether a thread is blocked on the condition variable. -/
def is_asleep (s : State) : Thread → Bool
  | Thread.main => decide (s.main = Main.asleep)
  | Thread.worker i => decide (s.workers[i]? = some Worker.asleep)

/-- Whether some thread is blocked on the condition variable. -/
def anyone_asleep (s : State) : Bool :=
  decide (s.main = Main.asleep) || s.workers.any fun wk => decide (wk = Worker.asleep)

/-- A thread blocked on the condition variable is woken: it will lock the mutex and
test its predicate again. -/
def wake (s : State) : Thread → State
  | Thread.main =>
    if s.main = Main.asleep then
      ⟨s.workers, s.tasks, s.stop, s.unfinished_tasks, Main.submitting [], s.shared, s.futures⟩
    else s
  | Thread.worker i =>
    if s.workers[i]? = some Worker.asleep then
      ⟨s.workers.set i Worker.ready, s.tasks, s.stop, s.unfinished_tasks, s.main, s.shared,
        s.futures⟩
    else s

/-- The call `condition.notify_one()` (lines 45 and 80): with no thread blocked on the
condition variable it does nothing, otherwise it wakes one blocked thread, `target`. -/
def notify_one (target : Thread) (s : State) : Option State :=
  if anyone_asleep s then
    if is_asleep s target then some (wake s target) else none
  else some s

/-- The call `condition.notify_all()` (line 60): it wakes every blocked thread. -/
def notify_all (s : State) : State :=
  ⟨s.workers.map fun wk => if wk = Worker.asleep then Worker.ready else wk,
   s.tasks, s.stop, s.unfinished_tasks,
   if s.main = Main.asleep then Main.submitting [] else s.main, s.shared, s.futures⟩

/-- Next atomic step of the main thread (lines 184-185, with `enqueue`, lines 72-81, and
`wait`, lines 51-64). -/
def main_step (target : Thread) (s : State) : Option State :=
  match s.main with
  | Main.submitting (t :: rest) =>
    if s.stop then
      some ⟨s.workers, s.tasks, s.stop, s.unfinished_tasks, Main.terminated, s.shared,
        s.futures⟩
    else
      some ⟨s.workers, s.tasks ++ [t], s.stop, s.unfinished_tasks + 1, Main.notifying rest,
        s.shared, s.futures⟩
  | Main.notifying rest =>
    notify_one target
      ⟨s.workers, s.tasks, s.stop, s.unfinished_tasks, Main.submitting rest, s.shared,
        s.futures⟩
  | Main.submitting [] =>
    if s.tasks.isEmpty && s.unfinished_tasks == 0 then
      some ⟨s.workers, s.tasks, s.stop, s.unfinished_tasks, Main.wait_stop, s.shared,
        s.futures⟩
    else
      some ⟨s.workers, s.tasks, s.stop, s.unfinished_tasks, Main.asleep, s.shared, s.futures⟩
  | Main.asleep => none
  | Main.wait_stop =>
    some ⟨s.workers, s.tasks, true, s.unfinished_tasks, Main.wait_notify, s.shared, s.futures⟩
  | Main.wait_notify =>
    some (notify_all
      ⟨s.workers, s.tasks, s.stop, s.unfinished_tasks, Main.wait_join, s.shared, s.futures⟩)
  | Main.wait_join =>
    if s.workers.all (fun wk => wk = Worker.returned) then
      some ⟨s.workers, s.tasks, s.stop, s.unfinished_tasks, Main.drained, s.shared, s.futures⟩
    else none
  | Main.drained => none
  | Main.terminated => none

/-- Next atomic step of worker `i` (lines 29-46). -/
def worker_step (w : World) (i : Nat) (target : Thread) (s : State) : Option State :=
  match s.workers[i]? with
  | none => none
  | some Worker.ready =>
    match s.tasks with
    | t :: rest =>
      let run := search_pattern_in_file_ops w t.pattern t.file_path
      some ⟨s.workers.set i (Worker.running t run.1 run.2), rest, s.stop, s.unfinished_tasks,
        s.main, s.shared, s.futures⟩
    | [] =>
      if s.stop then
        some ⟨s.workers.set i Worker.returned, [], s.stop, s.unfinished_tasks, s.main,
          s.shared, s.futures⟩
      else
        some ⟨s.workers.set i Worker.asleep, [], s.stop, s.unfinished_tasks, s.main,
          s.shared, s.futures⟩
  | some Worker.asleep => none
  | some (Worker.running t (op :: ops) outcome) =>
    some ⟨s.workers.set i (Worker.running t ops outcome), s.tasks, s.stop,
      s.unfinished_tasks, s.main, op.apply i s.shared, s.futures⟩
  | some (Worker.running t [] outcome) =>
    some ⟨s.workers.set i Worker.notifying, s.tasks, s.stop, s.unfinished_tasks - 1, s.main,
      s.shared, s.futures ++ [(t, outcome)]⟩
  | some Worker.notifying =>
    notify_one target
      ⟨s.workers.set i Worker.ready, s.tasks, s.stop, s.unfinished_tasks, s.main, s.shared,
        s.futures⟩
  | some Worker.returned => none

/-- Next atomic step of `thread`, `none` when it is blocked or finished. When the step is
a `notify_one` and some thread is blocked on the condition variable, `target` is the
thread it wakes; in every other step `target` plays no part. -/
def step (w : World) (thread target : Thread) (s : State) : Option State :=
  match thread with
  | Thread.main => main_step target s
  | Thread.worker i => worker_step w i target s

/-- The state a schedule of pairs `(thread, target)` leads to, `none` when one of its
steps is not possible. -/
def exec (w : World) : List (Thread × Thread) → State → Option State
  | [], s => some s
  | move :: rest, s =>
    match step w move.1 move.2 s with
    | none => none
    | some s1 => exec w rest s1

end Notify

/-- A schedule for two workers and one task of two updates in which the `notify_one` of
the worker that finishes the task (line 45) wakes the idle worker: worker 0 falls
asleep; the main thread submits the task and its `notify_one` wakes worker 0; worker 1
dequeues the task; worker 0 falls asleep again; the main thread enters `wait` and
falls asleep; worker 1 runs the task, decrements the counter and wakes worker 0; both
workers fall asleep. -/
def lost_wakeup : List (Thread × Thread) :=
  [(Thread.worker 0, Thread.main), (Thread.main, Thread.main), (Thread.main, Thread.worker 0),
   (Thread.worker 1, Thread.main), (Thread.worker 0, Thread.main), (Thread.main, Thread.main),
   (Thread.worker 1, Thread.main), (Thread.worker 1, Thread.main),
   (Thread.worker 1, Thread.main), (Thread.worker 1, Thread.worker 0),
   (Thread.worker 0, Thread.main), (Thread.worker 1, Thread.main)]

/-- The schedule `lost_wakeup` up to the `notify_one` of the worker that finishes the
task, which here wakes the main thread: `wait` passes its predicate, sets `stop`,
wakes worker 0, and both workers return. -/
def wakeup_reaches_main : List (Thread × Thread) :=
  [(Thread.worker 0, Thread.main), (Thread.main, Thread.main), (Thread.main, Thread.worker 0),
   (Thread.worker 1, Thread.main), (Thread.worker 0, Thread.main), (Thread.main, Thread.main),
   (Thread.worker 1, Thread.main), (Thread.worker 1, Thread.main),
   (Thread.worker 1, Thread.main), (Thread.worker 1, Thread.main),
   (Thread.main, Thread.main), (Thread.main, Thread.main), (Thread.main, Thread.main),
   (Thread.worker 0, Thread.main), (Thread.worker 1, Thread.main), (Thread.main, Thread.main)]

/-! ## Invariants of the running program -/

/-- A list with a position that holds `a` splits around it, and writing at the position
replaces `a`. -/
theorem split_at_index {α : Type} {l : List α} {i : Nat} {a : α} (h : l[i]? = some a) :
    ∃ l1 l2, l = l1 ++ a :: l2 ∧ l1.length = i ∧ ∀ b, l.set i b = l1 ++ b :: l2 := by
  induction l generalizing i with
  | nil => simp at h
  | cons x xs ih =>
    cases i with
    | zero =>
      simp at h
      subst h
      exact ⟨[], xs, rfl, rfl, fun b => rfl⟩
    | succ j =>
      simp at h
      obtain ⟨l1, l2, h1, hlen, h2⟩ := ih h
      refine ⟨x :: l1, l2, by simp [h1], by simp [hlen], fun b => ?_⟩
      simp [h2 b]

theorem held_replicate (n : Nat) :
    (List.replicate n Worker.waiting).flatMap Worker.held = [] := by
  induction n with
  | zero => rfl
  | succ n ih => simp [List.replicate_succ, Worker.held, ih]

theorem owed_replicate (n : Nat) :
    (List.replicate n Worker.waiting).flatMap Worker.owed = [] := by
  induction n with
  | zero => rfl
  | succ n ih => simp [List.replicate_succ, Worker.owed, ih]

theorem Inv.launch (w : World) (threads : Nat) (all : List Task) :
    Inv w threads all (launch threads all) := by
  refine ⟨?_, ?_, ?_, ?_, ?_, ?_, ?_, ?_, ?_, ?_, ?_, by simp [Grep.launch]⟩
  · simp [Grep.launch, ThreadPool.new]
  · simp [Grep.launch, ThreadPool.new, held_replicate]
  · simp [Grep.launch, ThreadPool.new, held_replicate, Main.pending]
  · simp [Grep.launch, ThreadPool.new, owed_replicate, Main.pending, Shared.made,
      logged_names]
  · intro t ops outcome hmem
    simp [Grep.launch, ThreadPool.new] at hmem
  · simp [Grep.launch]
  · simp [Grep.launch]
  · simp [Grep.launch, ThreadPool.new, Main.past_stop]
  · simp [Grep.launch, Main.past_predicate]
  · simp [Grep.launch, ThreadPool.new]
  · simp [Grep.launch]

theorem Inv.main_step {w : World} {threads : Nat} {all : List Task} {s s1 : State}
    (h : Inv w threads all s) (hs : main_step s = some s1) : Inv w threads all s1 := by
  obtain ⟨pool, main, shared, futures⟩ := s
  obtain ⟨workers, tasks, stop, unfinished⟩ := pool
  obtain ⟨hsize, hcount, htasks, hcons, hrun, hfin, halive, hstop, hpassed, hret, hjoin, hlog⟩ :=
    h
  simp only at hsize hcount htasks hcons hrun hfin halive hstop hpassed hret hjoin hlog
  cases main with
  | submitting pending =>
    cases pending with
    | nil =>
      simp only [Grep.main_step, ThreadPool.wait_predicate] at hs
      split at hs
      · rename_i hp
        simp at hs
        subst hs
        simp at hp
        refine ⟨hsize, hcount, ?_, ?_, hrun, hfin, by simp, ?_, ?_, hret, by simp, hlog⟩
        · simpa [Main.pending] using htasks
        · simpa [Main.pending] using hcons
        · simpa [Main.past_stop] using hstop
        · intro _; exact ⟨by simpa using hp.1, hp.2⟩
      · simp at hs
    | cons t rest =>
      have hstop1 : stop = false := by simpa [Main.past_stop] using hstop
      subst hstop1
      simp [Grep.main_step, ThreadPool.enqueue] at hs
      subst hs
      refine ⟨hsize, ?_, ?_, ?_, hrun, hfin, by simp, ?_, ?_, hret, by simp, hlog⟩
      · simp [hcount]; omega
      · simpa [Main.pending] using htasks
      · simp only [Main.pending, List.flatMap_append, List.flatMap_cons, List.flatMap_nil,
          List.append_nil, List.append_assoc] at hcons ⊢
        exact hcons
      · simp [Main.past_stop]
      · simp [Main.past_predicate]
  | wait_stop =>
    simp [Grep.main_step] at hs
    subst hs
    refine ⟨hsize, hcount, ?_, ?_, hrun, hfin, by simp, ?_, ?_, by simp, by simp, hlog⟩
    · simpa [Main.pending] using htasks
    · simpa [Main.pending] using hcons
    · simp [Main.past_stop]
    · intro _; exact hpassed (by simp [Main.past_predicate])
  | wait_join =>
    simp only [Grep.main_step] at hs
    split at hs
    · rename_i hall
      simp at hs
      subst hs
      refine ⟨hsize, hcount, ?_, ?_, hrun, hfin, by simp, ?_, ?_, hret, ?_, hlog⟩
      · simpa [Main.pending] using htasks
      · simpa [Main.pending] using hcons
      · simpa [Main.past_stop] using hstop
      · intro _; exact hpassed (by simp [Main.past_predicate])
      · intro _ wk hwk
        simpa using (List.all_eq_true.mp hall) wk hwk
    · simp at hs
  | drained => simp [Grep.main_step] at hs
  | terminated => simp [Grep.main_step] at hs

/-- Adding a name under a key adds that name, and nothing else, to the names held. -/
theorem logged_names_push (id : Nat) (name : String) (logs : ThreadLogs) :
    (logged_names (thread_logs_push id name logs)).Perm (name :: logged_names logs) := by
  induction logs with
  | nil => simp [thread_logs_push, logged_names]
  | cons entry rest ih =>
    obtain ⟨k, names⟩ := entry
    simp only [thread_logs_push]
    split
    · simp [logged_names]
    · split
      · simp only [logged_names, List.flatMap_cons, List.append_assoc, List.singleton_append]
        exact List.perm_middle
      · simp only [logged_names, List.flatMap_cons] at ih ⊢
        exact (List.Perm.append_left names ih).trans List.perm_middle

/-- One update moves from the updates to make to the updates made. -/
theorem made_apply (id : Nat) (op : Op) (sh : Shared) :
    (op.apply id sh).made.Perm (op :: sh.made) := by
  cases op with
  | push_back res =>
    simp only [Op.apply, Shared.made, List.map_append, List.map_cons, List.map_nil,
      List.append_assoc, List.singleton_append]
    exact List.perm_middle
  | log name =>
    simp only [Op.apply, Shared.made]
    refine (List.Perm.append_left _ ((logged_names_push id name sh.thread_logs).map Op.log)).trans
      ?_
    simp only [List.map_cons]
    exact List.perm_middle

/-- Adding a name leaves no key without a name. -/
theorem push_logged (id : Nat) (name : String) (logs : ThreadLogs)
    (h : ∀ entry ∈ logs, entry.2 ≠ []) :
    ∀ entry ∈ thread_logs_push id name logs, entry.2 ≠ [] := by
  induction logs with
  | nil => simp [thread_logs_push]
  | cons head rest ih =>
    obtain ⟨k, names⟩ := head
    have hrest : ∀ entry ∈ rest, entry.2 ≠ [] := fun e he => h e (by simp [he])
    simp only [thread_logs_push]
    split
    · intro entry hentry
      simp at hentry
      rcases hentry with rfl | rfl | hentry
      · simp
      · exact h _ (by simp)
      · exact hrest _ hentry
    · split
      · intro entry hentry
        simp at hentry
        rcases hentry with rfl | hentry
        · simp
        · exact hrest _ hentry
      · intro entry hentry
        simp at hentry
        rcases hentry with rfl | hentry
        · exact h _ (by simp)
        · exact ih hrest _ hentry

theorem apply_logged (id : Nat) (op : Op) (sh : Shared)
    (h : ∀ entry ∈ sh.thread_logs, entry.2 ≠ []) :
    ∀ entry ∈ (op.apply id sh).thread_logs, entry.2 ≠ [] := by
  cases op with
  | push_back res => exact h
  | log name => exact push_logged id name sh.thread_logs h

theorem Inv.worker_step {w : World} {threads : Nat} {all : List Task} {s s1 : State}
    {i : Nat} (h : Inv w threads all s) (hs : worker_step w i s = some s1) :
    Inv w threads all s1 := by
  obtain ⟨pool, main, shared, futures⟩ := s
  obtain ⟨workers, tasks, stop, unfinished⟩ := pool
  obtain ⟨hsize, hcount, htasks, hcons, hrun, hfin, halive, hstop, hpassed, hret, hjoin, hlog⟩ :=
    h
  simp only at hsize hcount htasks hcons hrun hfin halive hstop hpassed hret hjoin hlog
  rw [List.perm_iff_count] at hcons htasks
  simp only [Grep.worker_step] at hs
  cases hw : workers[i]? with
  | none => simp [hw] at hs
  | some wk =>
    obtain ⟨l1, l2, rfl, -, hset⟩ := split_at_index hw
    simp only [hw] at hs
    cases wk with
    | waiting =>
      cases tasks with
      | nil =>
        simp only at hs
        split at hs
        · rename_i hst
          simp at hs
          subst hs
          refine ⟨by simpa [hset] using hsize, ?_, ?_, ?_, ?_, hfin, halive, hstop, hpassed,
            fun _ => hst, ?_, hlog⟩
          · simpa [hset, Worker.held] using hcount
          · rw [List.perm_iff_count]
            intro a
            simpa [hset, Worker.held] using htasks a
          · rw [List.perm_iff_count]
            intro a
            simpa [hset, Worker.owed] using hcons a
          · intro t ops outcome hmem
            apply hrun t ops outcome
            simp [hset] at hmem
            simp
            rcases hmem with hmem | hmem
            · exact Or.inl hmem
            · exact Or.inr hmem
          · intro hm wk hwk
            have := hjoin hm
            simp [hset] at hwk
            rcases hwk with hwk | hwk | hwk
            · exact this wk (by simp [hwk])
            · exact hwk
            · exact this wk (by simp [hwk])
        · simp at hs
      | cons t rest =>
        simp at hs
        subst hs
        refine ⟨by simpa [hset] using hsize, ?_, ?_, ?_, ?_, hfin, halive, hstop, ?_, ?_, ?_,
          hlog⟩
        · simp [hset, Worker.held] at hcount ⊢
          omega
        · rw [List.perm_iff_count]
          intro a
          have := htasks a
          simp [hset, Worker.held, List.count_cons] at this ⊢
          omega
        · rw [List.perm_iff_count]
          intro a
          have := hcons a
          simp [hset, Worker.owed, Task.ops] at this ⊢
          omega
        · intro t1 ops outcome hmem
          simp [hset] at hmem
          rcases hmem with hmem | hmem | hmem
          · exact hrun t1 ops outcome (by simp [hmem])
          · obtain ⟨rfl, -, rfl⟩ := hmem
            rfl
          · exact hrun t1 ops outcome (by simp [hmem])
        · intro hm
          have := hpassed hm
          simp at this
        · intro hmem
          apply hret
          simp [hset] at hmem
          simp
          rcases hmem with hmem | hmem
          · exact Or.inl hmem
          · exact Or.inr hmem
        · intro hm
          have := hjoin hm Worker.waiting (by simp)
          simp at this
    | running t ops outcome =>
      have hnd : main ≠ Main.drained := by
        intro hm
        have := hjoin hm (Worker.running t ops outcome) (by simp)
        simp at this
      have hout : outcome = t.outcome w := hrun t ops outcome (by simp)
      cases ops with
      | nil =>
        simp at hs
        subst hs
        refine ⟨by simpa [hset] using hsize, ?_, ?_, ?_, ?_, ?_, halive, hstop, ?_, ?_,
          fun hm => absurd hm hnd, hlog⟩
        · simp [hset, Worker.held] at hcount ⊢
          omega
        · rw [List.perm_iff_count]
          intro a
          have := htasks a
          simp [hset, Worker.held, List.count_cons] at this ⊢
          omega
        · rw [List.perm_iff_count]
          intro a
          simpa [hset, Worker.owed] using hcons a
        · intro t1 ops outcome hmem
          apply hrun t1 ops outcome
          simp [hset] at hmem
          rcases hmem with hmem | hmem <;> simp [hmem]
        · intro p hp
          simp at hp
          rcases hp with hp | hp
          · exact hfin p hp
          · subst hp
            exact hout
        · intro hm
          have := hpassed hm
          simp [this.1, this.2]
        · intro hmem
          apply hret
          simp [hset] at hmem
          simp
          rcases hmem with hmem | hmem
          · exact Or.inl hmem
          · exact Or.inr hmem
      | cons op ops =>
        simp at hs
        subst hs
        refine ⟨by simpa [hset] using hsize, ?_, ?_, ?_, ?_, hfin, halive, hstop, hpassed, ?_,
          fun hm => absurd hm hnd, apply_logged i op shared hlog⟩
        · simpa [hset, Worker.held] using hcount
        · rw [List.perm_iff_count]
          intro a
          simpa [hset, Worker.held] using htasks a
        · rw [List.perm_iff_count]
          intro a
          have h1 := hcons a
          have h2 := (made_apply i op shared).count_eq a
          simp [hset, Worker.owed, List.count_cons] at h1 h2 ⊢
          omega
        · intro t1 ops1 outcome1 hmem
          simp [hset] at hmem
          rcases hmem with hmem | hmem | hmem
          · exact hrun t1 ops1 outcome1 (by simp [hmem])
          · obtain ⟨rfl, -, rfl⟩ := hmem
            exact hout
          · exact hrun t1 ops1 outcome1 (by simp [hmem])
        · intro hmem
          apply hret
          simp [hset] at hmem
          simp
          rcases hmem with hmem | hmem
          · exact Or.inl hmem
          · exact Or.inr hmem
    | returned => simp at hs

theorem Inv.step {w : World} {threads : Nat} {all : List Task} {s s1 : State}
    {th : Thread} (h : Inv w threads all s) (hs : step w th s = some s1) :
    Inv w threads all s1 := by
  cases th with
  | main => exact h.main_step hs
  | worker i => exact h.worker_step hs

theorem Inv.exec {w : World} {threads : Nat} {all : List Task} {sched : List Thread}
    {s s1 : State} (h : Inv w threads all s) (hs : exec w sched s = some s1) :
    Inv w threads all s1 := by
  induction sched generalizing s with
  | nil =>
    simp [Grep.exec] at hs
    exact hs ▸ h
  | cons th rest ih =>
    simp only [Grep.exec] at hs
    split at hs
    · simp at hs
    · rename_i s2 hstep
      exact ih (h.step hstep) hs

/-! ## A completing schedule exists -/

theorem main_step_rank {w : World} {s s1 : State} (hs : main_step s = some s1) :
    s1.rank w < s.rank w := by
  obtain ⟨pool, main, shared, futures⟩ := s
  obtain ⟨workers, tasks, stop, unfinished⟩ := pool
  cases main with
  | submitting pending =>
    cases pending with
    | nil =>
      simp only [Grep.main_step] at hs
      split at hs
      · simp at hs
        subst hs
        simp [State.rank, Main.rank]
      · simp at hs
    | cons t rest =>
      simp only [Grep.main_step, ThreadPool.enqueue] at hs
      cases stop with
      | true =>
        simp at hs
        subst hs
        simp [State.rank, Main.rank]
      | false =>
        simp at hs
        subst hs
        simp [State.rank, Main.rank]
        omega
  | wait_stop =>
    simp [Grep.main_step] at hs
    subst hs
    simp [State.rank, Main.rank]
  | wait_join =>
    simp only [Grep.main_step] at hs
    split at hs
    · simp at hs
      subst hs
      simp [State.rank, Main.rank]
    · simp at hs
  | drained => simp [Grep.main_step] at hs
  | terminated => simp [Grep.main_step] at hs

theorem worker_step_rank {w : World} {i : Nat} {s s1 : State}
    (hs : worker_step w i s = some s1) : s1.rank w < s.rank w := by
  obtain ⟨pool, main, shared, futures⟩ := s
  obtain ⟨workers, tasks, stop, unfinished⟩ := pool
  simp only [Grep.worker_step] at hs
  cases hw : workers[i]? with
  | none => simp [hw] at hs
  | some wk =>
    obtain ⟨l1, l2, rfl, -, hset⟩ := split_at_index hw
    simp only [hw] at hs
    cases wk with
    | waiting =>
      cases tasks with
      | nil =>
        simp only at hs
        split at hs
        · simp at hs
          subst hs
          simp [State.rank, hset, Worker.rank]
        · simp at hs
      | cons t rest =>
        simp at hs
        subst hs
        simp [State.rank, hset, Worker.rank, Task.ops]
        omega
    | running t ops outcome =>
      cases ops with
      | nil =>
        simp at hs
        subst hs
        simp [State.rank, hset, Worker.rank]
      | cons op ops =>
        simp at hs
        subst hs
        simp [State.rank, hset, Worker.rank]
    | returned => simp at hs

theorem step_rank {w : World} {th : Thread} {s s1 : State} (hs : step w th s = some s1) :
    s1.rank w < s.rank w := by
  cases th with
  | main => exact main_step_rank hs
  | worker i => exact worker_step_rank hs

/-- A worker inside `task()` can always take its next step. -/
theorem running_can_step (w : World) (s : State) (i : Nat) (t : Task) (ops : List Op)
    (outcome : Outcome) (h : s.pool.workers[i]? = some (Worker.running t ops outcome)) :
    ∃ s1, worker_step w i s = some s1 := by
  cases ops <;> simp [Grep.worker_step, h]

/-- A held task is held by a worker inside `task()`. -/
theorem held_worker {workers : List Worker} (h : workers.flatMap Worker.held ≠ []) :
    ∃ (i : Nat) (t : Task) (ops : List Op) (outcome : Outcome),
      workers[i]? = some (Worker.running t ops outcome) := by
  induction workers with
  | nil => simp at h
  | cons wk rest ih =>
    cases wk with
    | running t ops outcome => exact ⟨0, t, ops, outcome, by simp⟩
    | waiting =>
      obtain ⟨i, t, ops, outcome, hi⟩ := ih (by simpa [Worker.held] using h)
      exact ⟨i + 1, t, ops, outcome, by simpa using hi⟩
    | returned =>
      obtain ⟨i, t, ops, outcome, hi⟩ := ih (by simpa [Worker.held] using h)
      exact ⟨i + 1, t, ops, outcome, by simpa using hi⟩

/-- Until `wait` has returned some step of the relation `step`, in which a thread waits
only for its predicate, is possible. -/
theorem Inv.progress {w : World} {threads : Nat} {all : List Task} {s : State}
    (h : Inv w threads all s) (hthreads : 1 ≤ threads) (hmain : s.main ≠ Main.drained) :
    ∃ th s1, Grep.step w th s = some s1 := by
  obtain ⟨pool, main, shared, futures⟩ := s
  obtain ⟨workers, tasks, stop, unfinished⟩ := pool
  obtain ⟨hsize, hcount, -, -, -, -, halive, hstop, hpassed, hret, -, -⟩ := h
  simp only at hsize hcount halive hstop hpassed hret hmain
  cases main with
  | submitting pending =>
    have hstop1 : stop = false := by simpa [Main.past_stop] using hstop
    subst hstop1
    cases pending with
    | cons t rest =>
      exact ⟨Thread.main, by simp [Grep.step, Grep.main_step, ThreadPool.enqueue]⟩
    | nil =>
      cases tasks with
      | nil =>
        by_cases hu : unfinished = 0
        · exact ⟨Thread.main, by
            simp [Grep.step, Grep.main_step, ThreadPool.wait_predicate, hu]⟩
        · have hheld : workers.flatMap Worker.held ≠ [] := by
            intro hnil
            simp [hnil] at hcount
            exact hu hcount
          obtain ⟨i, t, ops, outcome, hi⟩ := held_worker hheld
          obtain ⟨s1, hs1⟩ := running_can_step w
            ⟨⟨workers, [], false, unfinished⟩, Main.submitting [], shared, futures⟩ i t ops
            outcome hi
          exact ⟨Thread.worker i, s1, hs1⟩
      | cons t rest =>
        cases workers with
        | nil => simp at hsize; omega
        | cons wk others =>
          cases wk with
          | waiting =>
            exact ⟨Thread.worker 0, by simp [Grep.step, Grep.worker_step]⟩
          | running t1 ops outcome =>
            obtain ⟨s1, hs1⟩ := running_can_step w
              ⟨⟨Worker.running t1 ops outcome :: others, t :: rest, false, unfinished⟩,
                Main.submitting [], shared, futures⟩ 0 t1 ops outcome (by simp)
            exact ⟨Thread.worker 0, s1, hs1⟩
          | returned =>
            have := hret (by simp)
            simp at this
  | wait_stop => exact ⟨Thread.main, by simp [Grep.step, Grep.main_step]⟩
  | wait_join =>
    have hstop1 : stop = true := by simpa [Main.past_stop] using hstop
    have htasks : tasks = [] := (hpassed (by simp [Main.past_predicate])).1
    subst hstop1 htasks
    by_cases hall : workers.all (fun wk => wk = Worker.returned) = true
    · exact ⟨Thread.main, by simp [Grep.step, Grep.main_step, hall]⟩
    · simp only [List.all_eq_true, decide_eq_true_eq, not_forall] at hall
      obtain ⟨wk, hmem, hne⟩ := hall
      obtain ⟨i, hi⟩ := List.getElem?_of_mem hmem
      cases wk with
      | waiting => exact ⟨Thread.worker i, by simp [Grep.step, Grep.worker_step, hi]⟩
      | running t ops outcome =>
        obtain ⟨s1, hs1⟩ := running_can_step w
          ⟨⟨workers, [], true, unfinished⟩, Main.wait_join, shared, futures⟩ i t ops outcome hi
        exact ⟨Thread.worker i, s1, hs1⟩
      | returned => exact absurd rfl hne
  | drained => exact absurd rfl hmain
  | terminated => exact absurd rfl halive

/-- In the relation `step`, from every state of a run of a pool with at least one worker
some schedule leads to the return of `wait`. -/
theorem Inv.completes {w : World} {threads : Nat} {all : List Task} (hthreads : 1 ≤ threads) :
    ∀ (n : Nat) (s : State), Inv w threads all s → s.rank w ≤ n →
      ∃ sched s1, Grep.exec w sched s = some s1 ∧ s1.main = Main.drained := by
  intro n
  induction n with
  | zero =>
    intro s h hn
    by_cases hmain : s.main = Main.drained
    · exact ⟨[], s, rfl, hmain⟩
    · obtain ⟨th, s1, hs1⟩ := h.progress hthreads hmain
      have := step_rank hs1
      omega
  | succ n ih =>
    intro s h hn
    by_cases hmain : s.main = Main.drained
    · exact ⟨[], s, rfl, hmain⟩
    · obtain ⟨th, s1, hs1⟩ := h.progress hthreads hmain
      have hlt := step_rank hs1
      obtain ⟨sched, s2, hexec, hdone⟩ := ih s1 (h.step hs1) (by omega)
      exact ⟨th :: sched, s2, by simp [Grep.exec, hs1, hexec], hdone⟩

/-! ## The results after the drain -/

mutual
theorem search_files_entry_eq (pattern : String) :
    ∀ entry, search_files_entry pattern entry =
      (regular_files_entry entry).map fun path => ⟨pattern, path⟩
  | Entry.regular path => by simp [search_files_entry, regular_files_entry]
  | Entry.directory _ entries => by
    simp only [search_files_entry, regular_files_entry]
    exact search_files_eq pattern entries
  | Entry.other _ => by simp [search_files_entry, regular_files_entry]
theorem search_files_eq (pattern : String) :
    ∀ entries, search_files pattern entries =
      (regular_files entries).map fun path => ⟨pattern, path⟩
  | [] => by simp [search_files, regular_files]
  | entry :: rest => by
    simp only [search_files, regular_files, List.map_append]
    rw [search_files_entry_eq pattern entry, search_files_eq pattern rest]
end

/-- The results the loop of the scan adds are the matching lines with their numbers. -/
theorem scan_lines_pushed (re : String → Bool) (file_path : String) (n : Nat)
    (lines : List String) :
    (scan_lines re file_path n lines).flatMap Op.pushed =
      ((lines.enumFrom n).filter fun numbered => re numbered.2).map
        fun numbered => ⟨file_path, numbered.1 + 1, numbered.2⟩ := by
  induction lines generalizing n with
  | nil => rfl
  | cons line rest ih =>
    simp only [scan_lines, List.enumFrom_cons, List.filter_cons]
    split <;> simp [Op.pushed, ih]

/-- The results the body of a scan task adds are the matches of its file. -/
theorem task_pushed (w : World) (pattern file_path : String) :
    (Task.ops w ⟨pattern, file_path⟩).flatMap Op.pushed = file_matches w pattern file_path := by
  simp only [Task.ops, search_pattern_in_file_ops, file_matches, line_matches]
  cases w.ifstream file_path with
  | none => rfl
  | some lines =>
    cases w.regex pattern with
    | none => simp
    | some re => simp [scan_lines_pushed, Op.pushed, List.enum]

/-- The results all the tasks of a traversal add are the matches of the tree. -/
theorem traversal_pushed (w : World) (pattern : String) (root : List Entry) :
    ((search_files pattern root).flatMap (Task.ops w)).flatMap Op.pushed =
      expected_matches w pattern root := by
  rw [search_files_eq, expected_matches]
  induction regular_files root with
  | nil => rfl
  | cons path rest ih =>
    simp only [List.map_cons, List.flatMap_cons, List.flatMap_append, task_pushed] at ih ⊢
    rw [ih]

/-- The results among the updates made are the vector `results`. -/
theorem made_pushed (sh : Shared) : sh.made.flatMap Op.pushed = sh.results := by
  simp only [Shared.made, List.flatMap_append]
  have h1 : ∀ l : List Result, (l.map Op.push_back).flatMap Op.pushed = l := by
    intro l
    induction l with
    | nil => rfl
    | cons x xs ih => simp [Op.pushed, List.flatMap_cons, ih]
  have h2 : ∀ l : List String, (l.map Op.log).flatMap Op.pushed = [] := by
    intro l
    induction l with
    | nil => rfl
    | cons x xs ih => simp [Op.pushed, List.flatMap_cons, ih]
  rw [h1, h2, List.append_nil]

/-- Once `wait` has returned no task is queued, held or still to be submitted, and the
updates made are those of all the tasks. -/
theorem Inv.drained {w : World} {threads : Nat} {all : List Task} {s : State}
    (h : Inv w threads all s) (hmain : s.main = Main.drained) :
    s.pool.tasks = [] ∧ s.pool.unfinished_tasks = 0 ∧ s.pool.stop = true ∧
      (∀ wk ∈ s.pool.workers, wk = Worker.returned) ∧
      (s.futures.map Prod.fst).Perm all ∧ s.shared.made.Perm (all.flatMap (Task.ops w)) := by
  have hp := h.passed (by simp [hmain, Main.past_predicate])
  have hw := h.joined hmain
  have hheld : s.pool.workers.flatMap Worker.held = [] := by
    rw [List.flatMap_eq_nil_iff]
    intro wk hwk
    rw [hw wk hwk]
    rfl
  have howed : s.pool.workers.flatMap Worker.owed = [] := by
    rw [List.flatMap_eq_nil_iff]
    intro wk hwk
    rw [hw wk hwk]
    rfl
  refine ⟨hp.1, hp.2, ?_, hw, ?_, ?_⟩
  · rw [h.stop_iff, hmain]
    rfl
  · simpa [hheld, hp.1, hmain, Main.pending] using h.tasks
  · simpa [howed, hp.1, hmain, Main.pending] using h.updates

/-- Once `wait` has returned the vector `results` holds the matches of the tree, each
once. -/
theorem results_of_drained (w : World) (threads : Nat) (pattern : String) (root : List Entry)
    (sched : List Thread) (s : State)
    (hrun : exec w sched (start threads pattern root) = some s)
    (hmain : s.main = Main.drained) :
    s.shared.results.Perm (expected_matches w pattern root) := by
  have hinv : Inv w threads (search_files pattern root) s :=
    (Inv.launch w threads (search_files pattern root)).exec hrun
  have hmade := (hinv.drained hmain).2.2.2.2.2
  have := hmade.flatMap_right Op.pushed
  rwa [made_pushed, traversal_pushed] at this

/-- A worker inside `task()` holds a task. -/
theorem running_held {workers : List Worker} {i : Nat} {t : Task} {ops : List Op}
    {outcome : Outcome} (h : workers[i]? = some (Worker.running t ops outcome)) :
    1 ≤ (workers.flatMap Worker.held).length := by
  obtain ⟨l1, l2, rfl, -, -⟩ := split_at_index h
  simp [Worker.held]
  omega

/-- When every task is finished none is queued, held or still to be submitted. -/
theorem Inv.all_finished {w : World} {threads : Nat} {all : List Task} {s : State}
    (h : Inv w threads all s) (hall : (s.futures.map Prod.fst).Perm all) :
    s.pool.tasks = [] ∧ s.pool.workers.flatMap Worker.held = [] ∧ s.main.pending = [] := by
  have h1 := h.tasks.length_eq
  have h2 := hall.length_eq
  simp only [List.length_append] at h1
  refine ⟨?_, ?_, ?_⟩ <;> apply List.eq_nil_of_length_eq_zero <;> omega

/-! ## Sorting -/

theorem path_less_false_iff (a b : Result) :
    path_less b a = false ↔ a.file_path.data ≤ b.file_path.data := by
  simp [path_less]

theorem insertion_sort_std : StdSort insertion_sort := by
  intro l
  have htotal : IsTotal Result fun a b => path_less b a = false :=
    ⟨fun a b => by
      simp only [path_less_false_iff]
      exact le_total _ _⟩
  have htrans : IsTrans Result fun a b => path_less b a = false :=
    ⟨fun a b c => by
      simp only [path_less_false_iff]
      exact le_trans⟩
  exact ⟨List.perm_insertionSort _ l, List.sorted_insertionSort _ l⟩

/-- A sort that meets `StdSort` puts two results with different paths in the order of
their paths. -/
theorem sort_pair (sort : List Result → List Result) (hsort : StdSort sort)
    (l : List Result) (x y : Result) (hl : l.Perm [x, y]) (hxy : path_less x y = true) :
    sort l = [x, y] := by
  obtain ⟨hperm, hsorted⟩ := hsort l
  have hp : (sort l).Perm [x, y] := hperm.trans hl
  have hirr : ∀ r : Result, path_less r r = false := by
    intro r
    simp [path_less]
  have hne : x ≠ y := by
    rintro rfl
    rw [hirr] at hxy
    exact Bool.false_ne_true hxy
  match hsl : sort l, hp.length_eq with
  | [a, b], _ =>
    rw [hsl] at hp hsorted
    have ha : a = x ∨ a = y := by simpa using hp.mem_iff.mp (List.mem_cons_self a [b])
    have hb : b = x ∨ b = y := by simpa using hp.mem_iff.mp (by simp : b ∈ [a, b])
    have hx : x = a ∨ x = b := by simpa using hp.mem_iff.mpr (List.mem_cons_self x [y])
    have hba : path_less b a = false := by simpa using hsorted
    have hy : y = a ∨ y = b := by simpa using hp.mem_iff.mpr (by simp : y ∈ [x, y])
    rcases ha with ha | ha <;> rcases hb with hb | hb
    · rcases hy with hy | hy
      · exact absurd (hy.trans ha).symm hne
      · exact absurd (hy.trans hb).symm hne
    · rw [ha, hb]
    · rw [ha, hb, hxy] at hba
      exact absurd hba (by simp)
    · rcases hx with hx | hx
      · exact absurd (hx.trans ha) hne
      · exact absurd (hx.trans hb) hne

/-- The matches of a tree whose regular files are those of the scenario, in a world
that holds the files of the scenario and a regex for `foo` that finds it in `foo` and
`foobar` and not in `bar`. -/
theorem scenario_matches (w : World) (re : String → Bool) (root : List Entry)
    (hre : w.regex "foo" = some re) (hfoo : re "foo" = true) (hbar : re "bar" = false)
    (hfoobar : re "foobar" = true)
    (ha : w.ifstream "root/a.txt" = some ["foo", "bar"])
    (hc : w.ifstream "root/b/c.txt" = some ["foobar"])
    (hroot : (regular_files root).Perm ["root/a.txt", "root/b/c.txt"]) :
    (expected_matches w "foo" root).Perm
      [⟨"root/a.txt", 1, "foo"⟩, ⟨"root/b/c.txt", 1, "foobar"⟩] := by
  have h := hroot.flatMap_right (file_matches w "foo")
  simpa [expected_matches, file_matches, line_matches, hre, ha, hc, hfoo, hbar, hfoobar,
    List.enum, List.enumFrom] using h

/-- With a pattern that does not compile no task makes an update. -/
theorem invalid_pattern_ops (w : World) (pattern : String) (hbad : w.regex pattern = none)
    (root : List Entry) : (search_files pattern root).flatMap (Task.ops w) = [] := by
  rw [List.flatMap_eq_nil_iff]
  intro t ht
  rw [search_files_eq] at ht
  obtain ⟨path, -, rfl⟩ := List.mem_map.mp ht
  simp only [Task.ops, search_pattern_in_file_ops, hbad]
  cases w.ifstream path <;> rfl
/-! ## The claims -/

/-- C1. For every directory tree, pattern and number of workers, and every schedule:
once `wait` has returned, `results` holds the matches of the tree (one for each regular
file under the root that can be read and each line of it that matches, with its
1-based number), each once and nothing else. With at least one worker some schedule
makes `wait` return. So the results of a run with 1 worker and those of a run with 8
workers are the same up to order. -/
theorem results_complete_for_every_schedule (w : World) (pattern : String)
    (root : List Entry) :
    (∀ threads, 1 ≤ threads →
      ∃ sched s, exec w sched (start threads pattern root) = some s ∧ s.main = Main.drained) ∧
    (∀ threads sched s, exec w sched (start threads pattern root) = some s →
      s.main = Main.drained → s.shared.results.Perm (expected_matches w pattern root)) ∧
    (∀ sched1 s1 sched8 s8, exec w sched1 (start 1 pattern root) = some s1 →
      s1.main = Main.drained → exec w sched8 (start 8 pattern root) = some s8 →
      s8.main = Main.drained → s1.shared.results.Perm s8.shared.results) := by
  refine ⟨?_, ?_, ?_⟩
  · intro threads hthreads
    exact Inv.completes hthreads _ _ (Inv.launch w threads (search_files pattern root))
      (Nat.le_refl _)
  · intro threads sched s hrun hmain
    exact results_of_drained w threads pattern root sched s hrun hmain
  · intro sched1 s1 sched8 s8 hrun1 hmain1 hrun8 hmain8
    exact (results_of_drained w 1 pattern root sched1 s1 hrun1 hmain1).trans
      (results_of_drained w 8 pattern root sched8 s8 hrun8 hmain8).symm

/-- C1 on the scenario with two workers, on a schedule that records the match of
`root/b/c.txt` first. -/
theorem results_complete_for_every_schedule_witness :
    ∃ s, exec (demo_world scenario_files gnu_sort_total) second_file_first
        (start 2 "foo" scenario_root) = some s ∧
      s.shared.results = [⟨"root/b/c.txt", 1, "foobar"⟩, ⟨"root/a.txt", 1, "foo"⟩] ∧
      expected_matches (demo_world scenario_files gnu_sort_total) "foo" scenario_root =
        [⟨"root/a.txt", 1, "foo"⟩, ⟨"root/b/c.txt", 1, "foobar"⟩] ∧
      s.shared.results.Perm
        (expected_matches (demo_world scenario_files gnu_sort_total) "foo" scenario_root) := by
  have hsome : (exec (demo_world scenario_files gnu_sort_total) second_file_first
      (start 2 "foo" scenario_root)).isSome = true := by decide
  obtain ⟨s, hs⟩ := Option.isSome_iff_exists.mp hsome
  have hmain : s.main = Main.drained := by
    have hm : (exec (demo_world scenario_files gnu_sort_total) second_file_first
        (start 2 "foo" scenario_root)).map State.main = some Main.drained := by decide
    rw [hs] at hm
    simpa using hm
  have hres : s.shared.results =
      [⟨"root/b/c.txt", 1, "foobar"⟩, ⟨"root/a.txt", 1, "foo"⟩] := by
    have hm : (exec (demo_world scenario_files gnu_sort_total) second_file_first
        (start 2 "foo" scenario_root)).map (fun s => s.shared.results) =
        some [⟨"root/b/c.txt", 1, "foobar"⟩, ⟨"root/a.txt", 1, "foo"⟩] := by decide
    rw [hs] at hm
    simpa using hm
  exact ⟨s, hs, hres, by decide,
    (results_complete_for_every_schedule _ "foo" scenario_root).2.1 2 _ s hs hmain⟩

set_option maxRecDepth 100000 in
/-- C2 at a failing input: a directory with the one file `a.txt` of seventeen lines
`foo`, the pattern `foo`, one worker, and the `std::sort` of libstdc++. The matches
are recorded in the order of the lines, 1 to 17; the sort keeps them a permutation in
non-descending path order, and the report has them in the order 9, 17, 16, ..., 10,
1, 8, ..., 2. -/
theorem report_scrambles_one_file :
    ∃ s, exec (demo_world long_file gnu_sort_total) one_long_task
        (start 1 "foo" [Entry.regular "a.txt"]) = some s ∧
      s.main = Main.drained ∧
      s.shared.results.map Result.line_number =
        [1, 2, 3, 4, 5, 6, 7, 8, 9, 10, 11, 12, 13, 14, 15, 16, 17] ∧
      (gnu_sort s.shared.results).isSome = true ∧
      (report (demo_world long_file gnu_sort_total) s.shared).map Result.line_number =
        [9, 17, 16, 15, 14, 13, 12, 11, 10, 1, 8, 7, 6, 5, 4, 3, 2] ∧
      (report (demo_world long_file gnu_sort_total) s.shared).map Result.file_path =
        List.replicate 17 "a.txt" ∧
      (main_after_wait (demo_world long_file gnu_sort_total) "specific_grep.txt"
        "specific_grep.log" 1 s.shared).result_file =
        some (String.join ([9, 17, 16, 15, 14, 13, 12, 11, 10, 1, 8, 7, 6, 5, 4, 3, 2].map
          fun (k : Nat) => "a.txt:" ++ toString k ++ ": foo\n")) := by
  refine ⟨_, rfl, ?_, ?_, ?_, ?_, ?_, ?_⟩ <;> decide

set_option maxRecDepth 100000 in
/-- C3 at a failing input: a directory with `a.txt` of sixteen lines `foo` and `b.txt`
of one line `foo`, the pattern `foo`, and the `std::sort` of libstdc++. With one worker
the matches of `a.txt` are recorded before the match of `b.txt`; with two workers, on
the schedule `second_file_overtakes`, after it. In both runs every file's matches are
recorded in the order of its lines, and the two reports differ: the first starts with
line 2 of `a.txt`, the second with line 8. -/
theorem report_depends_on_schedule :
    ∃ s1 s2,
      exec (demo_world two_files gnu_sort_total) first_file_first
        (start 1 "foo" [Entry.regular "a.txt", Entry.regular "b.txt"]) = some s1 ∧
      exec (demo_world two_files gnu_sort_total) second_file_overtakes
        (start 2 "foo" [Entry.regular "a.txt", Entry.regular "b.txt"]) = some s2 ∧
      s1.main = Main.drained ∧ s2.main = Main.drained ∧
      s1.shared.results.map (fun res => (res.file_path, res.line_number)) =
        (List.range 16).map (fun k => ("a.txt", k + 1)) ++ [("b.txt", 1)] ∧
      s2.shared.results.map (fun res => (res.file_path, res.line_number)) =
        ("b.txt", 1) :: (List.range 16).map (fun k => ("a.txt", k + 1)) ∧
      (gnu_sort s1.shared.results).isSome = true ∧
      (gnu_sort s2.shared.results).isSome = true ∧
      (report (demo_world two_files gnu_sort_total) s1.shared).map
          (fun res => (res.file_path, res.line_number)) =
        [2, 16, 15, 14, 13, 12, 11, 10, 9, 8, 7, 6, 5, 4, 3, 1].map
          (fun (k : Nat) => ("a.txt", k)) ++ [("b.txt", 1)] ∧
      (report (demo_world two_files gnu_sort_total) s2.shared).map
          (fun res => (res.file_path, res.line_number)) =
        [8, 16, 15, 14, 13, 12, 11, 10, 9, 7, 6, 5, 4, 3, 2, 1].map
          (fun (k : Nat) => ("a.txt", k)) ++ [("b.txt", 1)] ∧
      (main_after_wait (demo_world two_files gnu_sort_total) "specific_grep.txt"
        "specific_grep.log" 1 s1.shared).result_file ≠
      (main_after_wait (demo_world two_files gnu_sort_total) "specific_grep.txt"
        "specific_grep.log" 2 s2.shared).result_file := by
  refine ⟨_, _, rfl, rfl, ?_, ?_, ?_, ?_, ?_, ?_, ?_, ?_, ?_⟩ <;> decide

/-- C4. Start from a freshly constructed pool of any number of workers whose main thread
makes any submissions and then calls `wait` (so no submission is made after the call),
and take any schedule. From the moment `wait` is past its predicate (line 54), and so
when it returns, the queue is empty, `unfinished_tasks` is 0, no worker is between
dequeuing a task and the decrement, and the finished tasks are the submitted ones, each
once; when `wait` has returned, `stop` is true and every worker has left its loop. -/
theorem wait_returns_only_when_drained (w : World) (threads : Nat) (pending : List Task)
    (sched : List Thread) (s : State)
    (hrun : exec w sched (launch threads pending) = some s)
    (hpast : s.main.past_predicate = true) :
    s.pool.tasks = [] ∧ s.pool.unfinished_tasks = 0 ∧
    s.pool.workers.flatMap Worker.held = [] ∧
    (∀ wk ∈ s.pool.workers, wk = Worker.waiting ∨ wk = Worker.returned) ∧
    (s.futures.map Prod.fst).Perm pending ∧
    (s.main = Main.drained →
      s.pool.stop = true ∧ ∀ wk ∈ s.pool.workers, wk = Worker.returned) := by
  have hinv : Inv w threads pending s := (Inv.launch w threads pending).exec hrun
  obtain ⟨htasks, hzero⟩ := hinv.passed hpast
  have hcount := hinv.counter
  rw [htasks, hzero] at hcount
  have hheld : s.pool.workers.flatMap Worker.held = [] :=
    List.eq_nil_of_length_eq_zero (by simpa using hcount.symm)
  have hpending : s.main.pending = [] := by
    cases hm : s.main <;> simp [hm, Main.past_predicate, Main.pending] at hpast ⊢
  refine ⟨htasks, hzero, hheld, ?_, ?_, ?_⟩
  · intro wk hwk
    have := List.flatMap_eq_nil_iff.mp hheld wk hwk
    cases wk with
    | waiting => exact Or.inl rfl
    | running t ops outcome => simp [Worker.held] at this
    | returned => exact Or.inr rfl
  · simpa [hheld, htasks, hpending] using hinv.tasks
  · intro hmain
    exact ⟨(hinv.drained hmain).2.2.1, hinv.joined hmain⟩

/-- C4 on a run of two workers and the two tasks of the scenario, in which worker 1
runs both tasks. -/
theorem wait_returns_only_when_drained_witness :
    ∃ s, exec (demo_world scenario_files gnu_sort_total) one_worker_works
        (launch 2 (search_files "foo" scenario_root)) = some s ∧
      s.main = Main.drained ∧
      s.pool.tasks = [] ∧ s.pool.unfinished_tasks = 0 ∧
      s.pool.workers.flatMap Worker.held = [] ∧
      (∀ wk ∈ s.pool.workers, wk = Worker.waiting ∨ wk = Worker.returned) ∧
      (s.futures.map Prod.fst).Perm (search_files "foo" scenario_root) ∧
      (s.main = Main.drained →
        s.pool.stop = true ∧ ∀ wk ∈ s.pool.workers, wk = Worker.returned) := by
  have hsome : (exec (demo_world scenario_files gnu_sort_total) one_worker_works
      (launch 2 (search_files "foo" scenario_root))).isSome = true := by decide
  obtain ⟨s, hs⟩ := Option.isSome_iff_exists.mp hsome
  have hmain : s.main = Main.drained := by
    have hm : (exec (demo_world scenario_files gnu_sort_total) one_worker_works
        (launch 2 (search_files "foo" scenario_root))).map State.main = some Main.drained := by
      decide
    rw [hs] at hm
    simpa using hm
  exact ⟨s, hs, hmain, wait_returns_only_when_drained _ 2 _ one_worker_works s hs
    (by rw [hmain]; rfl)⟩

/-- C5. `ThreadPool::enqueue` fails exactly when `stop` is true: on a stopped pool it
throws the error `ThreadPool is stopped` and leaves the pool, so its queue and
`unfinished_tasks`, as they were; on a pool that is not stopped it succeeds, puts the
task at the back of the queue and adds exactly 1 to `unfinished_tasks`. -/
theorem enqueue_fails_iff_stopped (pool : ThreadPool) (t : Task) :
    ((pool.enqueue t).1 = Except.error "ThreadPool is stopped" ↔ pool.stop = true) ∧
    ((pool.enqueue t).1 = Except.ok () ↔ pool.stop = false) ∧
    (pool.stop = true → (pool.enqueue t).2 = pool) ∧
    (pool.stop = false →
      (pool.enqueue t).2.tasks = pool.tasks ++ [t] ∧
      (pool.enqueue t).2.unfinished_tasks = pool.unfinished_tasks + 1 ∧
      (pool.enqueue t).2.stop = false ∧
      (pool.enqueue t).2.workers = pool.workers) := by
  cases hstop : pool.stop <;> simp [ThreadPool.enqueue, hstop]

/-- C5 on a stopped pool that holds a queued task, and on the same pool not stopped. -/
theorem enqueue_fails_iff_stopped_witness :
    (ThreadPool.enqueue ⟨[Worker.waiting], [⟨"foo", "a.txt"⟩], true, 1⟩ ⟨"foo", "b.txt"⟩).2 =
      ⟨[Worker.waiting], [⟨"foo", "a.txt"⟩], true, 1⟩ ∧
    (ThreadPool.enqueue ⟨[Worker.waiting], [⟨"foo", "a.txt"⟩], false, 1⟩ ⟨"foo", "b.txt"⟩).2.tasks =
      [⟨"foo", "a.txt"⟩] ++ [⟨"foo", "b.txt"⟩] :=
  ⟨(enqueue_fails_iff_stopped ⟨[Worker.waiting], [⟨"foo", "a.txt"⟩], true, 1⟩
      ⟨"foo", "b.txt"⟩).2.2.1 rfl,
   ((enqueue_fails_iff_stopped ⟨[Worker.waiting], [⟨"foo", "a.txt"⟩], false, 1⟩
      ⟨"foo", "b.txt"⟩).2.2.2 rfl).1⟩

/-- C6 at a failing run: a directory with the one file `root/a.txt`, the pattern `foo`
and two workers, on the schedule `lost_wakeup`. The task has been executed, the queue
is empty, `unfinished_tasks` is 0, so the predicate of `wait` (line 54) holds; the
main thread is asleep inside `wait` and both workers are asleep at line 33, because
the `notify_one` of line 45 woke the idle worker; no thread can take a step, so nothing
will notify the main thread. Had that `notify_one` woken the main thread (schedule
`wakeup_reaches_main`), `wait` would have returned. -/
theorem wait_stays_blocked :
    Notify.exec (demo_world scenario_files insertion_sort) lost_wakeup
        (Notify.launch 2 (search_files "foo" [Entry.regular "root/a.txt"])) =
      some ⟨[Notify.Worker.asleep, Notify.Worker.asleep], [], false, 0, Notify.Main.asleep,
        ⟨[⟨"root/a.txt", 1, "foo"⟩], [(1, ["a.txt"])]⟩,
        [(⟨"foo", "root/a.txt"⟩, Outcome.returned)]⟩ ∧
    (∀ thread target : Thread,
      Notify.step (demo_world scenario_files insertion_sort) thread target
        ⟨[Notify.Worker.asleep, Notify.Worker.asleep], [], false, 0, Notify.Main.asleep,
          ⟨[⟨"root/a.txt", 1, "foo"⟩], [(1, ["a.txt"])]⟩,
          [(⟨"foo", "root/a.txt"⟩, Outcome.returned)]⟩ = none) ∧
    (Notify.exec (demo_world scenario_files insertion_sort) wakeup_reaches_main
        (Notify.launch 2 (search_files "foo" [Entry.regular "root/a.txt"]))).map
      (fun s => (s.main, s.workers, s.unfinished_tasks, s.shared.results)) =
      some (Notify.Main.drained, [Notify.Worker.returned, Notify.Worker.returned], 0,
        [⟨"root/a.txt", 1, "foo"⟩]) := by
  refine ⟨by decide, ?_, by decide⟩
  intro thread target
  cases thread with
  | main => rfl
  | worker i =>
    match i with
    | 0 => rfl
    | 1 => rfl
    | n + 2 => rfl

/-- C7, as stated, fails: on the scenario with the invalid pattern `(` and one worker,
the program reaches the end of `main`, exits with code 0, creates the result file and the
log file (both empty) and prints its usual summary; the two `regex_error`s stay in the
futures. -/
theorem invalid_pattern_exits_zero :
    ∃ s, exec (demo_world scenario_files insertion_sort) two_empty_tasks
        (start 1 "(" scenario_root) = some s ∧
      ((demo_world scenario_files insertion_sort).regex "(").isNone = true ∧
      s.main = Main.drained ∧
      s.futures = [(⟨"(", "root/a.txt"⟩, Outcome.thrown "regex_error"),
        (⟨"(", "root/b/c.txt"⟩, Outcome.thrown "regex_error")] ∧
      (main_after_wait (demo_world scenario_files insertion_sort) "specific_grep.txt"
        "specific_grep.log" 1 s.shared).exit_code = 0 ∧
      (main_after_wait (demo_world scenario_files insertion_sort) "specific_grep.txt"
        "specific_grep.log" 1 s.shared).result_file = some "" ∧
      (main_after_wait (demo_world scenario_files insertion_sort) "specific_grep.txt"
        "specific_grep.log" 1 s.shared).log_file = some "" ∧
      (main_after_wait (demo_world scenario_files insertion_sort) "specific_grep.txt"
        "specific_grep.log" 1 s.shared).stdout =
        ["Searched files: 0", "Files with pattern: 0", "Patterns number: 0",
          "Result file: specific_grep.txt", "Log file: specific_grep.log", "Used threads: 1",
          "Elapsed time: 0[ms]"] := by
  refine ⟨_, rfl, ?_, ?_, ?_, ?_, ?_, ?_, ?_⟩ <;> decide

/-- C7, amended. For every pattern that does not compile and every directory tree,
whatever the number of workers and the schedule: once `wait` has returned no match and
no activity entry is recorded, every task has ended, with `regex_error` kept in its
future when its file opened and normally when it did not, and `main` creates an empty
result file and an empty log file and exits with code 0. -/
theorem invalid_pattern_leaves_empty_files (w : World) (hsort : StdSort w.sort)
    (pattern : String) (hbad : w.regex pattern = none) (root : List Entry) (threads : Nat)
    (sched : List Thread) (s : State) (result_file_name log_file_name : String)
    (num_threads : Int)
    (hrun : exec w sched (start threads pattern root) = some s)
    (hmain : s.main = Main.drained) :
    s.shared = ⟨[], []⟩ ∧
    (s.futures.map Prod.fst).Perm (search_files pattern root) ∧
    (∀ p ∈ s.futures, p.2 =
      if w.ifstream p.1.file_path = none then Outcome.returned
      else Outcome.thrown "regex_error") ∧
    (main_after_wait w result_file_name log_file_name num_threads s.shared).exit_code = 0 ∧
    (main_after_wait w result_file_name log_file_name num_threads s.shared).result_file =
      some "" ∧
    (main_after_wait w result_file_name log_file_name num_threads s.shared).log_file =
      some "" := by
  have hinv : Inv w threads (search_files pattern root) s :=
    (Inv.launch w threads (search_files pattern root)).exec hrun
  obtain ⟨-, -, -, -, htasks, hmade⟩ := hinv.drained hmain
  rw [invalid_pattern_ops w pattern hbad root] at hmade
  have hnil : s.shared.made = [] := List.Perm.eq_nil hmade
  simp only [Shared.made, List.append_eq_nil, List.map_eq_nil_iff] at hnil
  have hlogs : s.shared.thread_logs = [] := by
    cases hl : s.shared.thread_logs with
    | nil => rfl
    | cons entry rest =>
      have hne := hinv.logged entry (by simp [hl])
      have := hnil.2
      simp only [logged_names, hl, List.flatMap_cons, List.append_eq_nil] at this
      exact absurd this.1 hne
  have hshared : s.shared = ⟨[], []⟩ := by
    cases hsh : s.shared with
    | mk results logs =>
      rw [hsh] at hnil hlogs
      simp only at hnil hlogs
      rw [hnil.1, hlogs]
  have hempty : w.sort [] = [] := List.Perm.eq_nil (hsort []).1
  refine ⟨hshared, htasks, ?_, rfl, ?_, ?_⟩
  · intro p hp
    have hout := hinv.finished p hp
    have hmem : p.1 ∈ search_files pattern root :=
      htasks.mem_iff.mp (List.mem_map_of_mem Prod.fst hp)
    rw [search_files_eq] at hmem
    obtain ⟨path, -, hpath⟩ := List.mem_map.mp hmem
    rw [hout, ← hpath]
    simp only [Task.outcome, search_pattern_in_file_ops, hbad]
    cases w.ifstream path <;> simp
  · simp only [main_after_wait, report, hshared, hempty]
    rfl
  · simp only [main_after_wait, hshared]
    rfl

/-- C7, amended, on the scenario with the invalid pattern `(`. -/
theorem invalid_pattern_leaves_empty_files_witness :
    ∃ s, exec (demo_world scenario_files insertion_sort) two_empty_tasks
        (start 1 "(" scenario_root) = some s ∧
      s.shared = ⟨[], []⟩ ∧
      (main_after_wait (demo_world scenario_files insertion_sort) "specific_grep.txt"
        "specific_grep.log" 1 s.shared).exit_code = 0 ∧
      (main_after_wait (demo_world scenario_files insertion_sort) "specific_grep.txt"
        "specific_grep.log" 1 s.shared).result_file = some "" := by
  have hsome : (exec (demo_world scenario_files insertion_sort) two_empty_tasks
      (start 1 "(" scenario_root)).isSome = true := by decide
  obtain ⟨s, hs⟩ := Option.isSome_iff_exists.mp hsome
  have hmain : s.main = Main.drained := by
    have hm : (exec (demo_world scenario_files insertion_sort) two_empty_tasks
        (start 1 "(" scenario_root)).map State.main = some Main.drained := by decide
    rw [hs] at hm
    simpa using hm
  have h := invalid_pattern_leaves_empty_files (demo_world scenario_files insertion_sort)
    insertion_sort_std "(" rfl scenario_root 1 two_empty_tasks s "specific_grep.txt"
    "specific_grep.log" 1 hs hmain
  exact ⟨s, hs, h.1, h.2.2.2.1, h.2.2.2.2.1⟩

/-- C8. For every pattern, valid or not, and every file path whose stream cannot be
opened, `search_pattern_in_file` returns without throwing and makes no update: `results`
and `thread_logs` are exactly as they were. -/
theorem unopened_file_is_skipped (w : World) (id : Nat) (pattern file_path : String)
    (sh : Shared) (hopen : w.ifstream file_path = none) :
    search_pattern_in_file w id pattern file_path sh = (Outcome.returned, sh) ∧
    search_pattern_in_file_ops w pattern file_path = ([], Outcome.returned) := by
  simp [search_pattern_in_file, search_pattern_in_file_ops, hopen]

/-- C8 for the invalid pattern `(` and a file that is not there, with a match and a log
entry already recorded. -/
theorem unopened_file_is_skipped_witness :
    ((demo_world scenario_files gnu_sort_total).regex "(").isNone = true ∧
    search_pattern_in_file (demo_world scenario_files gnu_sort_total) 0 "(" "root/missing.txt"
        ⟨[⟨"root/a.txt", 1, "foo"⟩], [(0, ["a.txt"])]⟩ =
      (Outcome.returned, ⟨[⟨"root/a.txt", 1, "foo"⟩], [(0, ["a.txt"])]⟩) :=
  ⟨by decide,
   (unopened_file_is_skipped (demo_world scenario_files gnu_sort_total) 0 "(" "root/missing.txt"
      ⟨[⟨"root/a.txt", 1, "foo"⟩], [(0, ["a.txt"])]⟩ (by decide)).1⟩

/-- C9. With a `std::sort` that meets its contract, the result file is the
concatenation, over the sorted vector, of the lines `file_path`, `:`, `line_number` in
decimal, `: `, `line_content`, newline; these lines are those of the recorded matches,
one each. For a tree whose regular files are `root/a.txt` holding `foo`, `bar` and
`root/b/c.txt` holding `foobar`, and the pattern `foo`, whatever the number of workers
and the schedule the result file is `root/a.txt:1: foo` then `root/b/c.txt:1: foobar`. -/
theorem result_file_lines (w : World) (hsort : StdSort w.sort) :
    (∀ (result_file_name log_file_name : String) (num_threads : Int) (sh : Shared),
      (main_after_wait w result_file_name log_file_name num_threads sh).result_file =
        some (String.join ((report w sh).map result_line)) ∧
      ((report w sh).map result_line).Perm (sh.results.map result_line)) ∧
    (∀ (file_path : String) (line_number : Nat) (line_content : String),
      result_line ⟨file_path, line_number, line_content⟩ =
        file_path ++ ":" ++ Nat.repr line_number ++ ": " ++ line_content ++ "\n") ∧
    (∀ (re : String → Bool) (root : List Entry) (threads : Nat) (sched : List Thread)
      (s : State) (result_file_name log_file_name : String) (num_threads : Int),
      w.regex "foo" = some re → re "foo" = true → re "bar" = false → re "foobar" = true →
      w.ifstream "root/a.txt" = some ["foo", "bar"] →
      w.ifstream "root/b/c.txt" = some ["foobar"] →
      (regular_files root).Perm ["root/a.txt", "root/b/c.txt"] →
      exec w sched (start threads "foo" root) = some s → s.main = Main.drained →
      (main_after_wait w result_file_name log_file_name num_threads s.shared).result_file =
        some "root/a.txt:1: foo\nroot/b/c.txt:1: foobar\n") := by
  refine ⟨?_, ?_, ?_⟩
  · intro rf lf n sh
    exact ⟨rfl, ((hsort sh.results).1).map result_line⟩
  · intro file_path line_number line_content
    rfl
  · intro re root threads sched s rf lf n hre hfoo hbar hfoobar ha hc hroot hrun hmain
    have hres := (results_of_drained w threads "foo" root sched s hrun hmain).trans
      (scenario_matches w re root hre hfoo hbar hfoobar ha hc hroot)
    have hrep : report w s.shared =
        [⟨"root/a.txt", 1, "foo"⟩, ⟨"root/b/c.txt", 1, "foobar"⟩] :=
      sort_pair w.sort hsort s.shared.results _ _ hres (by decide)
    simp only [main_after_wait, hrep]
    decide

/-- C9 on the scenario with two workers, on a schedule that records the match of
`root/b/c.txt` first. -/
theorem result_file_lines_witness :
    ∃ s, exec (demo_world scenario_files insertion_sort) second_file_first
        (start 2 "foo" scenario_root) = some s ∧
      s.shared.results = [⟨"root/b/c.txt", 1, "foobar"⟩, ⟨"root/a.txt", 1, "foo"⟩] ∧
      (main_after_wait (demo_world scenario_files insertion_sort) "specific_grep.txt"
          "specific_grep.log" 2 s.shared).result_file =
        some "root/a.txt:1: foo\nroot/b/c.txt:1: foobar\n" := by
  have hsome : (exec (demo_world scenario_files insertion_sort) second_file_first
      (start 2 "foo" scenario_root)).isSome = true := by decide
  obtain ⟨s, hs⟩ := Option.isSome_iff_exists.mp hsome
  have hmain : s.main = Main.drained := by
    have hm : (exec (demo_world scenario_files insertion_sort) second_file_first
        (start 2 "foo" scenario_root)).map State.main = some Main.drained := by decide
    rw [hs] at hm
    simpa using hm
  have hres : s.shared.results =
      [⟨"root/b/c.txt", 1, "foobar"⟩, ⟨"root/a.txt", 1, "foo"⟩] := by
    have hm : (exec (demo_world scenario_files insertion_sort) second_file_first
        (start 2 "foo" scenario_root)).map (fun s => s.shared.results) =
        some [⟨"root/b/c.txt", 1, "foobar"⟩, ⟨"root/a.txt", 1, "foo"⟩] := by decide
    rw [hs] at hm
    simpa using hm
  exact ⟨s, hs, hres,
    (result_file_lines (demo_world scenario_files insertion_sort) insertion_sort_std).2.2
      (fun line => decide ("foo".data <:+: line.data)) scenario_root 2 second_file_first s
      "specific_grep.txt" "specific_grep.log" 2 rfl (by decide) (by decide) (by decide)
      (by decide) (by decide) (by decide) hs hmain⟩

/-- C10 at a failing input: the scenario with the pattern `foobar` and one worker. Two
files are scanned and recorded in the activity log, one line matches, and the summary
prints `Searched files: 1`, the number it prints as `Patterns number`. -/
theorem searched_files_prints_match_count :
    ∃ s, exec (demo_world scenario_files insertion_sort)
        ([Thread.main, Thread.main] ++ List.replicate 7 (Thread.worker 0) ++
          [Thread.main, Thread.main, Thread.worker 0, Thread.main])
        (start 1 "foobar" scenario_root) = some s ∧
      s.main = Main.drained ∧
      s.futures.map Prod.fst = [⟨"foobar", "root/a.txt"⟩, ⟨"foobar", "root/b/c.txt"⟩] ∧
      s.shared.thread_logs = [(0, ["a.txt", "c.txt"])] ∧
      (logged_names s.shared.thread_logs).length = 2 ∧
      s.shared.results = [⟨"root/b/c.txt", 1, "foobar"⟩] ∧
      (main_after_wait (demo_world scenario_files insertion_sort) "specific_grep.txt"
        "specific_grep.log" 1 s.shared).stdout =
        ["Searched files: 1", "Files with pattern: 1", "Patterns number: 1",
          "Result file: specific_grep.txt", "Log file: specific_grep.log", "Used threads: 1",
          "Elapsed time: 0[ms]"] := by
  refine ⟨_, rfl, ?_, ?_, ?_, ?_, ?_, ?_⟩ <;> decide

/-! ## What else holds of the code -/

/-- What holds of C6 in every run. Whatever the body of a task does (it returns, or it
throws and `packaged_task` keeps the exception): a worker that has made the last update
of its task holds the outcome of that body, takes its next step, which lowers
`unfinished_tasks` by exactly 1 and records the outcome, and is back at the head of
its loop, not terminated; a worker with updates left takes its next step and stays in
its task. So once all submitted tasks are finished, `unfinished_tasks` is 0 and the
predicate of `wait` holds. Whether a main thread asleep in `wait` is then woken is
not part of this statement: `wait_stays_blocked` shows a run in which it is not. -/
theorem worker_survives_every_task (w : World) (threads : Nat) (pending : List Task)
    (sched : List Thread) (s : State)
    (hrun : exec w sched (launch threads pending) = some s) :
    (∀ (i : Nat) (t : Task) (outcome : Outcome),
      s.pool.workers[i]? = some (Worker.running t [] outcome) →
      outcome = t.outcome w ∧
      ∃ s1, step w (Thread.worker i) s = some s1 ∧
        s1.pool.workers[i]? = some Worker.waiting ∧
        s1.pool.unfinished_tasks + 1 = s.pool.unfinished_tasks ∧
        s1.futures = s.futures ++ [(t, outcome)]) ∧
    (∀ (i : Nat) (t : Task) (op : Op) (ops : List Op) (outcome : Outcome),
      s.pool.workers[i]? = some (Worker.running t (op :: ops) outcome) →
      ∃ s1, step w (Thread.worker i) s = some s1 ∧
        s1.pool.workers[i]? = some (Worker.running t ops outcome) ∧
        s1.pool.unfinished_tasks = s.pool.unfinished_tasks) ∧
    ((s.futures.map Prod.fst).Perm pending →
      s.pool.unfinished_tasks = 0 ∧ s.pool.wait_predicate = true) := by
  have hinv : Inv w threads pending s := (Inv.launch w threads pending).exec hrun
  refine ⟨?_, ?_, ?_⟩
  · intro i t outcome hi
    have hlen : i < s.pool.workers.length := (List.getElem?_eq_some_iff.mp hi).1
    have hheld := running_held hi
    have hcount := hinv.counter
    have hmem : Worker.running t [] outcome ∈ s.pool.workers := by
      obtain ⟨l1, l2, hsplit, -, -⟩ := split_at_index hi
      simp [hsplit]
    refine ⟨hinv.running t [] outcome hmem,
      ⟨⟨s.pool.workers.set i Worker.waiting, s.pool.tasks, s.pool.stop,
        s.pool.unfinished_tasks - 1⟩, s.main, s.shared, s.futures ++ [(t, outcome)]⟩,
      ?_, ?_, ?_, ?_⟩
    · simp only [Grep.step, Grep.worker_step, hi]
    · simp [hlen]
    · simp only
      omega
    · rfl
  · intro i t op ops outcome hi
    have hlen : i < s.pool.workers.length := (List.getElem?_eq_some_iff.mp hi).1
    refine ⟨⟨⟨s.pool.workers.set i (Worker.running t ops outcome), s.pool.tasks, s.pool.stop,
      s.pool.unfinished_tasks⟩, s.main, op.apply i s.shared, s.futures⟩, ?_, ?_, ?_⟩
    · simp only [Grep.step, Grep.worker_step, hi]
    · simp [hlen]
    · rfl
  · intro hall
    obtain ⟨h1, h2, -⟩ := hinv.all_finished hall
    have hcount := hinv.counter
    rw [h1, h2] at hcount
    simp only [List.length_nil, Nat.add_zero] at hcount
    have hpred : s.pool.wait_predicate = true := by
      simp [ThreadPool.wait_predicate, h1, hcount]
    exact ⟨hcount, hpred⟩

/-- The statement above on a run with the invalid pattern `(`: worker 0 has dequeued
the task of `root/a.txt`, whose body threw `regex_error`; its next step lowers the
counter from 2 to 1 and leaves it at the head of its loop. -/
theorem worker_survives_every_task_witness :
    ∃ s, exec (demo_world scenario_files gnu_sort_total)
        [Thread.main, Thread.main, Thread.worker 0]
        (launch 1 (search_files "(" scenario_root)) = some s ∧
      s.pool.workers[0]? =
        some (Worker.running ⟨"(", "root/a.txt"⟩ [] (Outcome.thrown "regex_error")) ∧
      s.pool.unfinished_tasks = 2 ∧
      ∃ s1, step (demo_world scenario_files gnu_sort_total) (Thread.worker 0) s = some s1 ∧
        s1.pool.workers[0]? = some Worker.waiting ∧
        s1.pool.unfinished_tasks + 1 = s.pool.unfinished_tasks ∧
        s1.futures = s.futures ++ [(⟨"(", "root/a.txt"⟩, Outcome.thrown "regex_error")] := by
  have hsome : (exec (demo_world scenario_files gnu_sort_total)
      [Thread.main, Thread.main, Thread.worker 0]
      (launch 1 (search_files "(" scenario_root))).isSome = true := by decide
  obtain ⟨s, hs⟩ := Option.isSome_iff_exists.mp hsome
  have hworker : s.pool.workers[0]? =
      some (Worker.running ⟨"(", "root/a.txt"⟩ [] (Outcome.thrown "regex_error")) := by
    have hm : (exec (demo_world scenario_files gnu_sort_total)
        [Thread.main, Thread.main, Thread.worker 0]
        (launch 1 (search_files "(" scenario_root))).map (fun s => s.pool.workers[0]?) =
        some (some (Worker.running ⟨"(", "root/a.txt"⟩ [] (Outcome.thrown "regex_error"))) := by
      decide
    rw [hs] at hm
    simpa using hm
  have hcounter : s.pool.unfinished_tasks = 2 := by
    have hm : (exec (demo_world scenario_files gnu_sort_total)
        [Thread.main, Thread.main, Thread.worker 0]
        (launch 1 (search_files "(" scenario_root))).map (fun s => s.pool.unfinished_tasks) =
        some 2 := by
      decide
    rw [hs] at hm
    simpa using hm
  exact ⟨s, hs, hworker, hcounter,
    ((worker_survives_every_task _ 1 _ _ s hs).1 0 _ _ hworker).2⟩

/-- What holds of C2 and C3 in every run: with a `std::sort` that meets its contract the
report is a rearrangement of the recorded matches in which no match stands before one
of a smaller path. -/
theorem report_sorted_permutation (w : World) (hsort : StdSort w.sort) (sh : Shared) :
    (report w sh).Perm sh.results ∧
    (report w sh).Pairwise fun a b => a.file_path.data ≤ b.file_path.data := by
  obtain ⟨hperm, hsorted⟩ := hsort sh.results
  refine ⟨hperm, hsorted.imp ?_⟩
  intro a b hab
  exact (path_less_false_iff a b).mp hab

/-- The statement above on two matches recorded against the order of their paths. -/
theorem report_sorted_permutation_witness :
    (report (demo_world scenario_files insertion_sort)
        ⟨[⟨"root/b/c.txt", 1, "foobar"⟩, ⟨"root/a.txt", 1, "foo"⟩], []⟩).Perm
      [⟨"root/b/c.txt", 1, "foobar"⟩, ⟨"root/a.txt", 1, "foo"⟩] ∧
    report (demo_world scenario_files insertion_sort)
        ⟨[⟨"root/b/c.txt", 1, "foobar"⟩, ⟨"root/a.txt", 1, "foo"⟩], []⟩ =
      [⟨"root/a.txt", 1, "foo"⟩, ⟨"root/b/c.txt", 1, "foobar"⟩] :=
  ⟨(report_sorted_permutation (demo_world scenario_files insertion_sort) insertion_sort_std
      ⟨[⟨"root/b/c.txt", 1, "foobar"⟩, ⟨"root/a.txt", 1, "foo"⟩], []⟩).1, by decide⟩

end Grep
